import Mathlib

/-!
# Verification of the luco configuration-language library

A shallow embedding, in Lean 4, of the core of the `luco` C++ library
(`src/include/parser.hpp`, the node/value/object/array model and the
streaming parser), together with theorems settling the claims
C1 .. C10 about it.

Modelling conventions:

* C++ `std::string` values are Lean `String`s, character buffers are
  `List Char`.
* `int64_t` is modelled as `Int`; `std::stoll` overflow is modelled
  explicitly (`stoll_all_digits`).
* C++ `double` payloads are modelled as exact rationals (`Rat`); the two
  places where the library manipulates doubles that matter to the claims
  are the decimal-string trimmer `pop_zeros_at_the_end` (which operates on
  the output of `std::to_string`, a fixed six-decimal string, and is
  modelled directly on strings) and the promotion `int64 -> double` in
  `operator+` (exact for the instances at issue).
* `std::shared_ptr` aliasing is modelled with an explicit heap: a `Store`
  is a list of `Cell`s and a C++ `luco::node` is an index into it.
  Copying a node copies the index (shared_ptr copy); `make_shared`
  appends a fresh cell.
* functions that throw C++ exceptions or return `luco::expected` errors
  return `Except`; a `std::` exception escaping inside a `noexcept`
  function (which calls `std::terminate` at run time) is kept as an
  explicit `.cppExc`/`.terminate` outcome.
-/

namespace Luco

/-! ## Error model (`error.hpp`)

`luco::error` carries an `error_type` and a message; only the kind is
relevant to the claims, so messages are abstracted away. -/

inductive ErrorType where
  | none
  | key_not_found
  | filesystem_error
  | parsing_error
  | parsing_error_wrong_type
  | wrong_type
  | wronge_index
deriving DecidableEq, Repr

/-- A C++ standard-library exception thrown by `std::stoll` / `std::stod`. -/
inductive CppExc where
  | invalid_argument
  | out_of_range
deriving DecidableEq, Repr

/-! ## Scalar values (`class value`, part_001)

`value` holds `std::variant<std::string, double, int64_t, bool, null_type,
monostate>`; the `_type` tag is kept consistent with the payload by
construction, so the payload alone is modelled. -/

inductive Value where
  | str (s : String)
  | dbl (q : Rat)
  | intV (n : Int)
  | boolV (b : Bool)
  | nullV
  | noneV
deriving DecidableEq, Repr

/-- Embedding of `value_type` tags relevant to `node::operator+` (`value::type()`). -/
inductive ValueTypeTag where
  | none | string | number | integer | double_t | null | boolean
  | temp_escape_type | unknown
deriving DecidableEq, Repr

/-- Embedding of `value::type()` : the `_type` tag maintained by `set_state`. -/
def Value.typeTag : Value → ValueTypeTag
  | .str _ => .string
  | .dbl _ => .double_t
  | .intV _ => .integer
  | .boolV _ => .boolean
  | .nullV => .null
  | .noneV => .none

def Value.is_string : Value → Bool
  | .str _ => true
  | _ => false

def Value.is_double : Value → Bool
  | .dbl _ => true
  | _ => false

def Value.is_integer : Value → Bool
  | .intV _ => true
  | _ => false

def Value.is_number : Value → Bool
  | .dbl _ => true
  | .intV _ => true
  | _ => false

def Value.is_boolean : Value → Bool
  | .boolV _ => true
  | _ => false

/-- Embedding of `value::try_as_number()` : succeeds on integer or double, promoting
`int64_t` to `double` (here: `Int` to `Rat`). -/
def Value.try_as_number : Value → Except ErrorType Rat
  | .dbl q => .ok q
  | .intV n => .ok (n : Rat)
  | _ => .error .wrong_type

/-- Embedding of `value::try_as_string()`. -/
def Value.try_as_string : Value → Except ErrorType String
  | .str s => .ok s
  | _ => .error .wrong_type

/-! ## Float stringification (`value::stringify`, part_001 lines 632-697)

For a double payload the code first produces `std::to_string(d)` — the
fixed-precision decimal with six fractional digits — and then runs the
`pop_zeros_at_the_end` lambda on it.  The lambda walks the index `i` from
`str.size() - 1` down to `0` over the *shrinking* string (only
`pop_back` is applied, and the cursor always stays strictly below the
current length), so it is equivalent to scanning the original characters
right to left and counting pops. -/

/-- One step per original character, scanned right to left; returns the
number of `pop_back` calls executed.  `found` is the lambda's
`found_zero` flag. -/
def popZerosCount : List Char → Bool → Nat
  | [], _ => 0
  | c :: rest, found =>
    if c = '0' then
      if found then popZerosCount rest true + 1 else popZerosCount rest true
    else if found then popZerosCount rest false + 1
    else 0

/-- The `pop_zeros_at_the_end` lambda of `value::stringify`, applied to the
fixed-precision decimal representation: pop characters according to the
`found_zero` scan, then append `"0"` if the string now ends in `'.'`. -/
def pop_zeros_at_the_end (s : String) : String :=
  let n := popZerosCount s.data.reverse false
  let t : List Char := s.data.take (s.data.length - n)
  if t ≠ [] ∧ t.getLast? = some '.' then String.mk (t ++ ['0']) else String.mk t

/-! ## Type inference (`luco_simple_types`, parser.hpp lines 499-614) -/

inductive NumberTypes where
  | none
  | float
  | int
deriving DecidableEq, Repr

inductive BooleanTypes where
  | none
  | isTrue
  | isFalse
deriving DecidableEq, Repr

/-- The `std::all_of` scan of `luco_simple_types::is_number` with its
stateful `has_decimal` flag: accepts a digit always, accepts `'.'` only
when `has_decimal` is still false.  Returns the final `has_decimal` when
every character was accepted. -/
def isNumberScan : List Char → Bool → Option Bool
  | [], hd => some hd
  | c :: rest, hd =>
    if c.isDigit then isNumberScan rest hd
    else if c == '.' && !hd then isNumberScan rest true
    else none

/-- Embedding of `luco_simple_types::is_number`. -/
def is_number (data : String) : NumberTypes :=
  if data = "" then .none
  else
    match isNumberScan data.data false with
    | Option.none => .none
    | some false => .int
    | some true => .float

/-- Embedding of `luco_simple_types::is_boolean`. -/
def is_boolean (data : String) : BooleanTypes :=
  if data = "on" ∨ data = "true" then .isTrue
  else if data = "off" ∨ data = "false" then .isFalse
  else .none

/-- Embedding of `luco_simple_types::is_null`. -/
def is_null (data : String) : Bool :=
  data = "null"

/-- Numeric value of a digit string. -/
def digitsToNat : List Char → Nat → Nat
  | [], acc => acc
  | c :: rest, acc => digitsToNat rest (acc * 10 + (c.toNat - 48))

/-- Embedding of `std::stoll` applied to a lexeme that `is_number` classified as
`_int` (all characters are digits): yields the value, or throws
`std::out_of_range` when it exceeds `INT64_MAX`. -/
def stoll_all_digits (s : String) : Except CppExc Int :=
  let v := digitsToNat s.data 0
  if v > 2 ^ 63 - 1 then .error .out_of_range else .ok (v : Int)

/-- Embedding of `std::stod` applied to a lexeme that `is_number` classified as
`_float` (digits with exactly one `'.'`): throws
`std::invalid_argument` when no conversion can be performed — i.e. when
the lexeme contains no digit at all (the lexeme `"."`) — and
`std::out_of_range` on double overflow; otherwise the decimal value
(exact, as a rational). -/
def stod_digits_dot (s : String) : Except CppExc Rat :=
  if s.data.all (fun c => ¬ c.isDigit) then .error .invalid_argument
  else
    let intPart := s.data.takeWhile (fun c => c ≠ '.')
    let fracPart := (s.data.dropWhile (fun c => c ≠ '.')).drop 1
    let q : Rat := (digitsToNat intPart 0 : Rat) +
      (digitsToNat fracPart 0 : Rat) / ((10 : Rat) ^ fracPart.length)
    if q ≥ 2 ^ 1024 - 2 ^ 970 then .error .out_of_range else .ok q

/-- The typed result of `luco_simple_types::get_type`:
`std::variant<std::string, bool, double, int64_t, null_type>`. -/
inductive TypedValue where
  | str (s : String)
  | boolV (b : Bool)
  | dbl (q : Rat)
  | intV (n : Int)
  | nullV
deriving DecidableEq, Repr

/-- Embedding of `luco_simple_types::get_type` (parser.hpp lines 513-551), with the
`std::stoll` / `std::stod` exceptions made explicit.  The branch order is
the source's: null first, then number, then boolean, else string. -/
def get_type (raw_value : String) : Except CppExc TypedValue :=
  if is_null raw_value then .ok .nullV
  else
    match is_number raw_value with
    | .int => (stoll_all_digits raw_value).map TypedValue.intV
    | .float => (stod_digits_dot raw_value).map TypedValue.dbl
    | .none =>
      match is_boolean raw_value with
      | .isTrue => .ok (.boolV true)
      | .isFalse => .ok (.boolV false)
      | .none => .ok (.str raw_value)

/-- The *classification* performed by `get_type`, ignoring the
string-to-number conversions: which scalar kind an unquoted lexeme is
given.  Mirrors the branch structure of `get_type`. -/
inductive LucoClass where
  | nullK
  | boolK (b : Bool)
  | intK
  | doubleK
  | strK
deriving DecidableEq, Repr

def classify (raw_value : String) : LucoClass :=
  if is_null raw_value then .nullK
  else
    match is_number raw_value with
    | .int => .intK
    | .float => .doubleK
    | .none =>
      match is_boolean raw_value with
      | .isTrue => .boolK true
      | .isFalse => .boolK false
      | .none => .strK

/-- The classifier as worded by claim C6, *including* its parenthetical
"a lexeme with no digit at all, such as `.`, is a String": its Double
class additionally demands at least one digit. -/
def classifyClaimC6 (s : String) : LucoClass :=
  if s = "null" then .nullK
  else if s = "true" ∨ s = "on" then .boolK true
  else if s = "false" ∨ s = "off" then .boolK false
  else if s ≠ "" ∧ s.data.all Char.isDigit then .intK
  else if s ≠ "" ∧ s.data.all (fun c => c.isDigit || c == '.') ∧
      s.data.count '.' = 1 ∧ s.data.any Char.isDigit then .doubleK
  else .strK

/-! ## The document tree with sharing (`class node`, part_001)

A `luco::node` holds
`std::variant<shared_ptr<value>, shared_ptr<array>, shared_ptr<object>>`.
The heap of `shared_ptr` targets is modelled as a `Store` — a list of
`Cell`s addressed by index — and a node is an index.  Copying a node
(`luco::node(const node&)`, and `setting_allowed_node_type` for a node
argument, part_001 line 1531) copies the pointer, i.e. the index;
`std::make_shared` appends a fresh cell.

A `luco::object` is a `std::map<std::string, node>` — a key-ordered,
duplicate-free association list here; `std::map::operator[]=` is the
sorted insert-or-assign `mapInsert`.  A `luco::array` is a
`std::vector<node>`. -/

inductive Cell where
  | val (v : Value)
  | arr (elems : List Nat)
  | obj (entries : List (String × Nat))
deriving DecidableEq, Repr

abbrev Store := List Cell

/-- Dereference a node (shared_ptr target).  All uses are in bounds; the
default is arbitrary. -/
def Store.cell (s : Store) (n : Nat) : Cell :=
  (s.get? n).getD (.obj [])

/-- Lexicographic order on character lists — `std::string::operator<`
(on valid UTF-8, byte order and scalar-value order agree). -/
def charListLt : List Char → List Char → Bool
  | _, [] => false
  | [], _ :: _ => true
  | a :: as, b :: bs =>
    if a.toNat < b.toNat then true
    else if b.toNat < a.toNat then false
    else charListLt as bs

/-- Embedding of `std::string::operator<`. -/
def strLt (a b : String) : Bool :=
  charListLt a.data b.data

/-- Embedding of `std::map<std::string, node>::operator[] =` on the key-sorted
association list: keys are ordered by `operator<` on `std::string`,
equivalent keys are overwritten. -/
def mapInsert : List (String × Nat) → String → Nat → List (String × Nat)
  | [], k, v => [(k, v)]
  | (k', v') :: rest, k, v =>
    if strLt k k' then (k, v) :: (k', v') :: rest
    else if strLt k' k then (k', v') :: mapInsert rest k v
    else (k, v) :: rest

inductive NodeType where
  | object
  | array
  | value
deriving DecidableEq, Repr

/-- Embedding of `node::type()`. -/
def typeOf (s : Store) (n : Nat) : NodeType :=
  match s.cell n with
  | .val _ => .value
  | .arr _ => .array
  | .obj _ => .object

/-- Embedding of `node::is_object()`. -/
def is_object (s : Store) (n : Nat) : Bool :=
  match s.cell n with
  | .obj _ => true
  | _ => false

/-- Embedding of `node::is_array()`. -/
def is_array (s : Store) (n : Nat) : Bool :=
  match s.cell n with
  | .arr _ => true
  | _ => false

/-- Embedding of `node::is_value()`. -/
def is_value (s : Store) (n : Nat) : Bool :=
  match s.cell n with
  | .val _ => true
  | _ => false

/-- Embedding of `node::is_integer()` : is_value and the value holds `int64_t`. -/
def node_is_integer (s : Store) (n : Nat) : Bool :=
  match s.cell n with
  | .val v => v.is_integer
  | _ => false

/-- Embedding of `node::is_double()`. -/
def node_is_double (s : Store) (n : Nat) : Bool :=
  match s.cell n with
  | .val v => v.is_double
  | _ => false

/-- Embedding of `node::contains(key)` : false on non-objects, otherwise a map find. -/
def contains (s : Store) (n : Nat) (k : String) : Bool :=
  match s.cell n with
  | .obj m => (m.lookup k).isSome
  | _ => false

/-- Outcome of `node::try_at`: a reference (index), a `luco::error`, or —
when a `std::` exception escapes the `noexcept` member —
`std::terminate`. -/
inductive AtResult where
  | ok (id : Nat)
  | err (e : ErrorType)
  | terminate
deriving DecidableEq, Repr

/-- Embedding of `node::try_at(const std::string&)` (part_001 lines 2078-2092):
`try_as_object` error (`wrong_type`) is forwarded; a missing key is
`key_not_found`. -/
def try_at_key (s : Store) (n : Nat) (k : String) : AtResult :=
  match s.cell n with
  | .obj m =>
    match m.lookup k with
    | some id => .ok id
    | Option.none => .err .key_not_found
  | _ => .err .wrong_type

/-- Embedding of `node::try_at(const size_t)` (part_001 lines 2094-2103): a non-array
yields `key_not_found`; on an array the code returns
`arr.value()->at(array_index)` — `std::vector::at` — with **no** bounds
check, so an out-of-range index throws `std::out_of_range` inside this
`noexcept` member, which calls `std::terminate`. -/
def try_at_idx (s : Store) (n : Nat) (array_index : Nat) : AtResult :=
  match s.cell n with
  | .arr l =>
    if h : array_index < l.length then .ok (l.get ⟨array_index, h⟩)
    else .terminate
  | _ => .err .key_not_found

/-- An argument to `node::insert` / `node::push_back` as exercised by the
claims: a scalar (built into a fresh `value` cell by
`setting_allowed_node_type`) or a pre-built node (whose `shared_ptr` is
copied, i.e. the index is shared). -/
inductive InsArg where
  | value (v : Value)
  | node (id : Nat)
deriving DecidableEq, Repr

/-- Embedding of `luco::node(arg)` : constructing a node from an argument.  A scalar
allocates (`std::make_shared<class value>`); a node copies the pointer. -/
def nodeOfArg (s : Store) : InsArg → Store × Nat
  | .value v => (s ++ [.val v], s.length)
  | .node id => (s, id)

/-- Embedding of `node::insert(key, value)` (part_001 lines 1686-1696): `wrong_type`
unless the node is an object; otherwise `obj->insert(key, luco::node(value))`
— construct the child, then `std::map` insert-or-assign — returning a
reference to the inserted child. -/
def insert (s : Store) (n : Nat) (k : String) (a : InsArg) :
    Except ErrorType (Store × Nat) :=
  match s.cell n with
  | .obj m =>
    let p := nodeOfArg s a
    .ok (p.1.set n (.obj (mapInsert m k p.2)), p.2)
  | _ => .error .wrong_type

/-- Embedding of `node::push_back(value)` (part_001 lines 1698-1710): the code first
constructs an (unused) `luco::node n(value)`, then checks `is_array`,
then pushes back a *second* `luco::node(value)`; both constructions are
kept for heap fidelity. -/
def push_back (s : Store) (n : Nat) (a : InsArg) :
    Except ErrorType (Store × Nat) :=
  let p₀ := nodeOfArg s a
  match p₀.1.cell n with
  | .arr l =>
    let p := nodeOfArg p₀.1 a
    .ok (p.1.set n (.arr (l ++ [p.2])), p.2)
  | _ => .error .wrong_type

/-- Embedding of `c.at(k).set(x)` for a scalar `x`: `node::set` runs
`setting_allowed_node_type`, which **allocates a fresh value cell**
(`std::make_shared`) and rebinds the child node's `_node` pointer — the
slot inside the parent's map — leaving the previously pointed-to cell
untouched. -/
def set_child_value (s : Store) (n : Nat) (k : String) (x : Value) : Store :=
  match s.cell n with
  | .obj m => (s ++ [Cell.val x]).set n (.obj (mapInsert m k s.length))
  | _ => s

/-- The object branch of `node::operator+` (part_001 lines 2192-2205)
inserts, into the fresh result object, every entry of the left node and
then every entry of the right node; `new_node.insert(key, node)` copies
the child's `shared_ptr`, so `objMerge` works on `(key, index)` entries
directly, and only the fresh cell's map is ever written. -/
def objMerge (ma mb : List (String × Nat)) : List (String × Nat) :=
  mb.foldl (fun acc e => mapInsert acc e.1 e.2)
    (ma.foldl (fun acc e => mapInsert acc e.1 e.2) [])

/-- Embedding of `node::operator+` (part_001 lines 2185-2241).  Different kinds throw
`wrong_type`.  Objects: fresh object cell with the merged entries (left
then right, right overriding).  Arrays: fresh array cell with the
concatenation.  Values: `new_node(this->type())` first allocates an empty
value cell, then the assignment allocates the result cell and rebinds —
strings concatenate, numbers add after `as_number` promotion to double,
anything else throws `wrong_type`. -/
def node_add (s : Store) (a b : Nat) : Except ErrorType (Store × Nat) :=
  if typeOf s a ≠ typeOf s b then .error .wrong_type
  else
    match s.cell a, s.cell b with
    | .obj ma, .obj mb => .ok (s ++ [.obj (objMerge ma mb)], s.length)
    | .arr la, .arr lb => .ok (s ++ [.arr (la ++ lb)], s.length)
    | .val va, .val vb =>
      if va.typeTag = .string then
        match va.try_as_string, vb.try_as_string with
        | .ok sa, .ok sb =>
          .ok (s ++ [.val .noneV, .val (.str (sa ++ sb))], s.length + 1)
        | _, _ => .error .wrong_type
      else if va.typeTag = .double_t ∨ va.typeTag = .integer then
        match va.try_as_number, vb.try_as_number with
        | .ok qa, .ok qb =>
          .ok (s ++ [.val .noneV, .val (.dbl (qa + qb))], s.length + 1)
        | _, _ => .error .wrong_type
      else .error .wrong_type
    | _, _ => .error .wrong_type

/-! ### Deep read-out of a node into a pure tree

Structural equality of nodes is equality of their read-outs.  `fuel`
bounds the depth (the C++ trees of interest are finite and acyclic). -/

inductive Tree where
  | val (v : Value)
  | arr (l : List Tree)
  | obj (m : List (String × Tree))
deriving Repr

/-- Option-valued map over a list, failing if any element fails. -/
def mapOpt (f : α → Option β) : List α → Option (List β)
  | [] => some []
  | a :: rest =>
    match f a with
    | Option.none => Option.none
    | some b =>
      match mapOpt f rest with
      | Option.none => Option.none
      | some bs => some (b :: bs)

/-- Deep copy of the node `n` of store `s` into a pure `Tree`, following
shared pointers; `none` when `fuel` is exhausted. -/
def readout : Nat → Store → Nat → Option Tree
  | 0, _, _ => Option.none
  | fuel + 1, s, n =>
    match s.cell n with
    | .val v => some (.val v)
    | .arr l => (mapOpt (fun c => readout fuel s c) l).map Tree.arr
    | .obj m =>
      (mapOpt (fun e => (readout fuel s e.2).map (fun t => (e.1, t))) m).map
        Tree.obj

/-- The read-out of an insertion argument before the insertion. -/
def argTree (fuel : Nat) (s : Store) : InsArg → Option Tree
  | .value v => some (.val v)
  | .node m => readout fuel s m

/-- The child indices stored directly in a cell. -/
def Cell.children : Cell → List Nat
  | .val _ => []
  | .arr l => l
  | .obj m => m.map Prod.snd

/-- Bounded reachability between heap indices (used to state that an
inserted subtree does not contain the node it is inserted into). -/
def reachB : Nat → Store → Nat → Nat → Bool
  | 0, _, m, t => m == t
  | fuel + 1, s, m, t =>
    m == t || (s.cell m).children.any (fun c => reachB fuel s c t)

/-- Every cell below `n` only points below `n`. -/
def ClosedBelow (n : Nat) (s : Store) : Prop :=
  ∀ i, i < n → ∀ c ∈ (s.cell i).children, c < n

instance (n : Nat) (s : Store) : Decidable (ClosedBelow n s) :=
  inferInstanceAs (Decidable (∀ i, i < n → ∀ c ∈ (s.cell i).children, c < n))

/-! ## The streaming parser (parser.hpp)

A faithful translation of the `token` handler classes and of
`parser::try_parse(const std::string&)`.  C++ member functions that
mutate `parsing_data` (notably `is_escaped`, which rewrites
`escaped_special_char`, and `handle_empty_in_string`, which also rewrites
the string-state) are translated as functions returning the updated
state; every call site preserves the C++ evaluation order, including
short-circuit `&&` / `||`. -/

/-- Embedding of `luco_value_type`. -/
inductive LVT where
  | none
  | unqouted_string
  | qouted_string_1
  | qouted_string_2
  | escaped_string_newline_unqouted
  | escaped_string_newline_qouted_1
  | escaped_string_newline_qouted_2
  | end_string_1
  | end_string_2
  | end_string_unqouted
deriving DecidableEq, Repr

/-- Embedding of `luco_syntax` (the stack of syntactic contexts). -/
inductive LucoCtx where
  | none
  | opening_bracket
  | closing_bracket
  | transient_bracket
  | undetermined_transient_bracket
  | quotes_1
  | quotes_2
  | key
  | equal_sign
  | value
  | string_type
  | boolean
  | null
  | number
  | newline
  | empty
  | escaped_newline
  | object
  | comment
  | nested_comment
  | array
  | maybe_empty_space_after
  | flush_value
deriving DecidableEq, Repr

/-- Embedding of `struct parsing_data`.  Stacks are lists with the top at the head. -/
structure ParsingData where
  line : List Char
  i : Nat
  line_number : Nat
  shift_index_backward_for_oldnewline : Bool
  eof : Bool
  keys : List (String × LVT)
  luco_objs : List Nat
  escaped_special_char : Nat × Bool × Char
  raw_value : String × LVT
  hierarchy : List (LucoCtx × (Nat × Nat))
deriving Repr

/-- The whole mutable state of a parse: the `parsing_data`, the node heap
(reached through the `luco_objs` pointers), and the `comment` handler's
`brackets_count` member (the `syntax` struct lives for the whole parse). -/
structure PState where
  d : ParsingData
  store : Store
  brackets_count : Nat
deriving Repr

/-- Embedding of `data.line[data.i]` (always in bounds when the driver calls a
handler). -/
def curChar (d : ParsingData) : Char :=
  d.line.getD d.i '\x00'

def special_chars : List Char := ['{', '=', '}', '"', '\'', '\\']

/-- Embedding of `token::is_escaped(data, ch)` (parser.hpp lines 373-422).  Mutates
`escaped_special_char`; returns whether `ch` at the cursor is (part of) a
doubled-character escape. -/
def is_escaped (d : ParsingData) (ch : Char) : Bool × ParsingData :=
  let pos := d.escaped_special_char.1
  let app := d.escaped_special_char.2.1
  let ec := d.escaped_special_char.2.2
  let reset := { d with escaped_special_char := (0, false, '\x00') }
  if d.i + 1 < d.line.length ∧ d.line.getD (d.i + 1) '\x00' = ch then
    if special_chars.contains ch then
      let app' :=
        if ec ≠ ch then false
        else if pos ≠ d.line_number * d.i ∧ pos ≠ 0 then true
        else false
      (true, { d with escaped_special_char := (d.line_number * d.i, app', ch) })
    else (false, reset)
  else if ec = ch ∧ ¬ app then
    (true, { d with escaped_special_char := (d.line_number * d.i, true, ec) })
  else (false, reset)

/-- Embedding of `token::delimiter(data, ch)` : the cursor holds an unescaped `ch`.
`is_escaped` is only evaluated when the characters match (C++ `&&`). -/
def delimiter (d : ParsingData) (ch : Char) : Bool × ParsingData :=
  if curChar d = ch then
    let p := is_escaped d ch
    (!p.1, p.2)
  else (false, d)

def is_empty (ch : Char) : Bool := ch = ' ' ∨ ch = '\t'

def is_newline (ch : Char) : Bool := ch = '\n'

def is_empty_newline (ch : Char) : Bool := ch = ' ' ∨ ch = '\t' ∨ ch = '\n'

/-- Embedding of `token::handle_is` : the top of the hierarchy is one of `is`. -/
def handle_is (d : ParsingData) (isToks : List LucoCtx) : Bool :=
  match d.hierarchy with
  | [] => false
  | (t, _) :: _ => isToks.contains t

/-- Embedding of `token::handle_not` : true unless the cursor holds one of the excluded
characters unescaped (an escaped special character does not exclude).
At most one set element can match the cursor, so at most one
`is_escaped` call happens. -/
def handle_not (d : ParsingData) (nots : List Char) : Bool × ParsingData :=
  let c := curChar d
  if nots.contains c then
    if special_chars.contains c then is_escaped d c
    else (false, d)
  else (true, d)

/-- Embedding of `token::handle_expected` : the cursor holds one of the expected
characters, unescaped.  The handlers' multimaps all have pairwise
distinct characters, so at most one entry matches. -/
def handle_expected (d : ParsingData) (expected : List (LucoCtx × Char)) :
    Bool × ParsingData :=
  let c := curChar d
  match expected.find? (fun e => e.2 == c) with
  | Option.none => (false, d)
  | some _ =>
    if special_chars.contains c then
      let p := is_escaped d c
      (!p.1, p.2)
    else (true, d)

/-- Embedding of `token::register_token`. -/
def register_token (d : ParsingData) (t : LucoCtx) : ParsingData :=
  { d with hierarchy := (t, (d.line_number, d.i)) :: d.hierarchy }

/-- Embedding of `token::unregister_token`. -/
def unregister_token (d : ParsingData) : ParsingData :=
  { d with hierarchy := d.hierarchy.tail }

/-- Embedding of `token::is_registered_token`. -/
def is_registered_token (d : ParsingData) (t : LucoCtx) : Bool :=
  match d.hierarchy with
  | (t', _) :: _ => t' == t
  | [] => false

def topCtx (d : ParsingData) : Option LucoCtx :=
  d.hierarchy.head?.map Prod.fst

def keysTop (d : ParsingData) : String × LVT :=
  d.keys.headD ("", .none)

def setKeysTop (d : ParsingData) (kv : String × LVT) : ParsingData :=
  { d with keys := kv :: d.keys.tail }

def objsTop (d : ParsingData) : Nat :=
  d.luco_objs.headD 0

/-- Embedding of `luco_simple_types::is_quoted_string`. -/
def is_quoted_string (t : LVT) : Bool :=
  t = .qouted_string_2 ∨ t = .qouted_string_1

/-- Embedding of `luco_simple_types::strip_if_unqouted_string` (parser.hpp lines
629-653): strips trailing blanks from an unquoted lexeme; when the lexeme
is all blanks the backward scan stops at index 0 and one character
remains. -/
def strip_if_unqouted_string (data : String) (t : LVT) : String :=
  if t ≠ LVT.unqouted_string ∨ data = "" ∨ ¬ is_empty (data.back) then data
  else
    match data.data.reverse.dropWhile (fun c => is_empty c) with
    | [] => String.mk (data.data.take 1)
    | dropped => String.mk dropped.reverse

/-- Embedding of `luco_simple_types::expected_multi_line_string`. -/
def expected_multi_line_string (t : LVT) : Bool :=
  t = .escaped_string_newline_qouted_1 ∨ t = .escaped_string_newline_qouted_2 ∨
    t = .escaped_string_newline_unqouted

/-- Embedding of `luco_simple_types::end_of_string`. -/
def end_of_string (t : LVT) : Bool :=
  t = .end_string_1 ∨ t = .end_string_2 ∨ t = .end_string_unqouted

/-- Embedding of `luco_simple_types::append_string` (parser.hpp lines 655-678), with
the C++ short-circuit evaluation order of the `delimiter` calls. -/
def append_string (d : ParsingData) (t : LVT) (ch : Char) :
    Bool × ParsingData :=
  let p1 := delimiter d '{'
  if p1.1 then (false, p1.2)
  else
    let p2 := delimiter p1.2 '}'
    if p2.1 then (false, p2.2)
    else if ¬ is_newline ch ∧ t = .unqouted_string then (true, p2.2)
    else
      let p3 := delimiter p2.2 '"'
      if ¬ p3.1 ∧ t = .qouted_string_2 then (true, p3.2)
      else
        let p4 := delimiter p3.2 '\''
        if ¬ p4.1 ∧ t = .qouted_string_1 then (true, p4.2)
        else (false, p4.2)

/-- Embedding of `luco_simple_types::handle_empty_in_string` (parser.hpp lines
704-814).  `t` is the by-reference string-state (`key_value_type`); the
returned triple is (consume-and-maybe-append?, data, new state). -/
def handle_empty_in_string (d : ParsingData) (t : LVT) (ch : Char) :
    Bool × ParsingData × LVT :=
  if is_empty_newline ch ∧ (t = LVT.none ∨ expected_multi_line_string t) then
    (false, d, t)
  else if d.escaped_special_char.1 ≠ 0 then
    if ¬ d.escaped_special_char.2.1 then (false, d, t)
    else
      let d' := { d with escaped_special_char := (0, false, '\x00') }
      (true, d', if t = LVT.none then LVT.unqouted_string else t)
  else
    let pb := delimiter d '\\'
    if pb.1 then
      let t' :=
        if t = .end_string_1 then LVT.escaped_string_newline_qouted_1
        else if t = .end_string_2 then LVT.escaped_string_newline_qouted_2
        else LVT.escaped_string_newline_unqouted
      (false, pb.2, t')
    else if t = .escaped_string_newline_qouted_1 then
      let pq := delimiter pb.2 '\''
      (false, pq.2, if pq.1 then LVT.qouted_string_1 else t)
    else if t = .escaped_string_newline_qouted_2 then
      let pq := delimiter pb.2 '"'
      (false, pq.2, if pq.1 then LVT.qouted_string_2 else t)
    else if t = .escaped_string_newline_unqouted then
      (true, pb.2, .unqouted_string)
    else
      let pa := append_string pb.2 t ch
      if pa.1 then (true, pa.2, t)
      else if t = LVT.none then
        let p1 := delimiter pa.2 '\''
        if p1.1 then (false, p1.2, .qouted_string_1)
        else
          let p2 := delimiter p1.2 '"'
          if p2.1 then (false, p2.2, .qouted_string_2)
          else
            let p3 := delimiter p2.2 '{'
            if p3.1 then (false, p3.2, t)
            else
              let p4 := delimiter p3.2 '}'
              if p4.1 then (false, p4.2, t)
              else (true, p4.2, .unqouted_string)
      else if t = .end_string_1 ∨ t = .end_string_2 then (false, pa.2, t)
      else
        let pq1 := delimiter pa.2 '\''
        if pq1.1 ∧ t = .qouted_string_1 then (true, pq1.2, .end_string_1)
        else
          let pq2 := delimiter pq1.2 '"'
          if pq2.1 ∧ t = .qouted_string_2 then (true, pq2.2, .end_string_2)
          else if is_newline (curChar pq2.2) ∧ t = .unqouted_string then
            (true, pq2.2, .end_string_unqouted)
          else (false, pq2.2, t)

/-- Failures of a handler: a `luco::error`, an uncaught C++ exception
(from `get_type`), or exhaustion of the evaluation fuel (a model
artefact, never reached on the inputs below). -/
inductive Fail where
  | lucoErr (e : ErrorType)
  | cppExc (e : CppExc)
  | outOfFuel
deriving DecidableEq, Repr

/-- Map a `TypedValue` (the `get_type` variant) into a scalar cell
payload — `node::insert` with a variant argument runs
`setting_allowed_node_type` through `handle_allowed_node_types`, ending
in a `luco::value`. -/
def valueOfTyped : TypedValue → Value
  | .str s => .str s
  | .boolV b => .boolV b
  | .dbl q => .dbl q
  | .intV n => .intV n
  | .nullV => .nullV

/-- Embedding of `luco_value::insert_value` (parser.hpp lines 1180-1215): strip the
raw value, type it with `get_type` (whose `std::stoll`/`std::stod`
exceptions escape), and insert into the top object (popping the key
frame) or push into the top array; finally clear `raw_value`. -/
def insert_value (st : PState) : Except Fail Bool × PState :=
  let d := st.d
  let rv := strip_if_unqouted_string d.raw_value.1 d.raw_value.2
  let d := { d with raw_value := (rv, d.raw_value.2) }
  match get_type rv with
  | .error e => (.error (.cppExc e), { st with d := d })
  | .ok tv =>
    let top := objsTop d
    if typeOf st.store top = .object then
      let k := strip_if_unqouted_string (keysTop d).1 (keysTop d).2
      let d := setKeysTop d (k, (keysTop d).2)
      match insert st.store top k (.value (valueOfTyped tv)) with
      | .error e => (.error (.lucoErr e), { st with d := d })
      | .ok (s', _) =>
        let d := { d with keys := d.keys.tail }
        let d := { d with raw_value := ("", LVT.none) }
        (.ok true, { st with d := d, store := s' })
    else if typeOf st.store top = .array then
      match push_back st.store top (.value (valueOfTyped tv)) with
      | .error e => (.error (.lucoErr e), { st with d := d })
      | .ok (s', _) =>
        let d := { d with raw_value := ("", LVT.none) }
        (.ok true, { st with d := d, store := s' })
    else
      let d := { d with raw_value := ("", LVT.none) }
      (.ok true, { st with d := d })

/-- Embedding of `comment::handle_token` (parser.hpp lines 817-904), with the
`brackets_count` member in the state. -/
def comment_handle_token (st : PState) : Except Fail Bool × PState :=
  let d := st.d
  -- is_token: delimiter(data, '#')
  let pTok := delimiter d '#'
  if pTok.1 then
    let d := register_token pTok.2 .comment
    -- is_registered_token(comment) now holds
    let pBr := delimiter d '{'
    let d :=
      if pBr.1 then register_token (unregister_token pBr.2) .nested_comment
      else pBr.2
    (.ok true, { st with d := d })
  else
    let d := pTok.2
    -- is_end_of_token
    let pEnd :=
      if topCtx d = some .comment then handle_expected d [(.newline, '\n')]
      else if topCtx d = some .nested_comment then
        let pc := delimiter d '}'
        (pc.1 && st.brackets_count == 0, pc.2)
      else (false, d)
    if pEnd.1 then
      let d := pEnd.2
      let d :=
        if topCtx d ≠ some .nested_comment then
          { d with shift_index_backward_for_oldnewline := true }
        else d
      let d := unregister_token d
      (.ok true, { st with d := d })
    else
      let d := pEnd.2
      if is_registered_token d .comment then
        let pBr := delimiter d '{'
        let d :=
          if pBr.1 then register_token (unregister_token pBr.2) .nested_comment
          else pBr.2
        (.ok true, { st with d := d })
      else if is_registered_token d .nested_comment then
        let pBr := delimiter d '{'
        if pBr.1 then
          (.ok true, { st with d := pBr.2, brackets_count := st.brackets_count + 1 })
        else
          let pBr2 := delimiter pBr.2 '}'
          if pBr2.1 ∧ st.brackets_count > 0 then
            (.ok true, { st with d := pBr2.2, brackets_count := st.brackets_count - 1 })
          else (.ok true, { st with d := pBr2.2 })
      else (.ok false, { st with d := d })

/-- Embedding of `luco_key::handle_token` (parser.hpp lines 1067-1160). -/
def luco_key_handle_token (st : PState) : Except Fail Bool × PState :=
  let d := st.d
  -- is_token: handle_is({object}) && handle_not({'\t','\n',' ','{','}'})
  let pTok :=
    if handle_is d [.object] then handle_not d ['\t', '\n', ' ', '{', '}']
    else (false, d)
  if pTok.1 then
    let d := register_token pTok.2 .key
    let d := { d with keys := ("", LVT.none) :: d.keys }
    -- common part: is_registered_token(key) now holds
    luco_key_common st d
  else
    let d := pTok.2
    -- is_end_of_token: top == key && handle_expected
    let pEnd :=
      if topCtx d = some .key then
        handle_expected d [(.opening_bracket, '{'), (.equal_sign, '=')]
      else (false, d)
    if pEnd.1 ∧ ¬ expected_multi_line_string (keysTop pEnd.2).2 then
      let d := unregister_token pEnd.2
      let pEq := delimiter d '='
      let d := register_token pEq.2
        (if pEq.1 then LucoCtx.equal_sign else LucoCtx.opening_bracket)
      (.ok true, { st with d := d })
    else
      luco_key_common st pEnd.2
where
  /-- the trailing `if (is_registered_token(key))` block -/
  luco_key_common (st : PState) (d : ParsingData) : Except Fail Bool × PState :=
    if is_registered_token d .key then
      let r := handle_empty_in_string d (keysTop d).2 (curChar d)
      let d := setKeysTop r.2.1 ((keysTop r.2.1).1, r.2.2)
      if r.1 then
        let d :=
          if ¬ end_of_string (keysTop d).2 then
            setKeysTop d ((keysTop d).1.push (curChar d), (keysTop d).2)
          else d
        (.ok true, { st with d := d })
      else (.ok false, { st with d := d })
    else (.ok false, { st with d := d })

/-- Embedding of `luco_value::handle_token` (parser.hpp lines 1162-1317). -/
def luco_value_handle_token (st : PState) : Except Fail Bool × PState :=
  let d := st.d
  -- is_token: handle_is({equal_sign, array}) && handle_not({'\t','\n',' ','}'})
  let pTok :=
    if handle_is d [.equal_sign, .array] then handle_not d ['\t', '\n', ' ', '}']
    else (false, d)
  if pTok.1 then
    let d := pTok.2
    -- prepare_for_next_token: pop an equal_sign / flush_value context
    let d :=
      if topCtx d = some .equal_sign ∨ topCtx d = some .flush_value then
        unregister_token d
      else d
    let d := register_token d .value
    luco_value_common st d
  else
    let d := pTok.2
    -- is_end_of_token
    let pEnd :=
      if topCtx d = some .value then
        let pe := handle_expected d [(.newline, '\n')]
        if pe.1 then
          let pb := delimiter pe.2 '\\'
          (!pb.1, pb.2)
        else (false, pe.2)
      else if topCtx d = some .flush_value then
        (true, { d with shift_index_backward_for_oldnewline := true })
      else (false, d)
    if pEnd.1 ∧ ¬ expected_multi_line_string pEnd.2.raw_value.2 then
      let r := insert_value { st with d := pEnd.2 }
      match r.1 with
      | .error e => (.error e, r.2)
      | .ok b => (.ok b, { r.2 with d := unregister_token r.2.d })
    else
      luco_value_common st pEnd.2
where
  /-- the trailing `if (is_registered_token(value))` block -/
  luco_value_common (st : PState) (d : ParsingData) : Except Fail Bool × PState :=
    if is_registered_token d .value then
      let pe := is_escaped d (curChar d)
      let d := pe.2
      let r := handle_empty_in_string d d.raw_value.2 (curChar d)
      let d := { r.2.1 with raw_value := (r.2.1.raw_value.1, r.2.2) }
      if r.1 then
        let pEq := delimiter d '='
        if pEq.1 then
          let d := { pEq.2 with
            raw_value := (pEq.2.raw_value.1, LVT.end_string_unqouted) }
          (.ok false, { st with d := d })
        else
          let d := pEq.2
          let d :=
            if ¬ end_of_string d.raw_value.2 then
              { d with raw_value := (d.raw_value.1.push (curChar d), d.raw_value.2) }
            else d
          (.ok true, { st with d := d })
      else if curChar d = '{' then
        let pBr := delimiter d '{'
        if pBr.1 then
          let d := unregister_token pBr.2
          if d.raw_value.2 ≠ LVT.none then
            let r2 := insert_value { st with d := d }
            match r2.1 with
            | .error e => (.error e, r2.2)
            | .ok _ =>
              let d := register_token r2.2.d .transient_bracket
              (.ok true, { r2.2 with d := d })
          else
            let d := register_token d .transient_bracket
            (.ok true, { st with d := d })
        else (.ok false, { st with d := pBr.2 })
      else (.ok false, { st with d := d })
    else (.ok false, { st with d := d })

/-- Embedding of `opening_bracket::handle_token` (parser.hpp lines 906-1064). -/
def opening_bracket_handle_token (st : PState) : Except Fail Bool × PState :=
  let d := st.d
  if handle_is d [.opening_bracket] then
    let d := register_token (unregister_token d) .transient_bracket
    opening_bracket_common st d
  else
    -- is_end_of_token
    let pEnd :=
      -- ((raw_value.second == none && not delimiter('{')) || hierarchy empty) → not an end
      let pFirst :=
        if d.raw_value.2 = LVT.none then
          let pb := delimiter d '{'
          (!pb.1, pb.2)
        else (false, d)
      if pFirst.1 ∨ pFirst.2.hierarchy = [] then (false, pFirst.2)
      else if topCtx pFirst.2 = some .transient_bracket then
        handle_expected pFirst.2 [(.object, '='), (.object, '{'), (.array, '\n')]
      else (false, pFirst.2)
    if pEnd.1 then
      let d := unregister_token pEnd.2
      let d := setKeysTop d
        (strip_if_unqouted_string (keysTop d).1 (keysTop d).2, (keysTop d).2)
      let pEq := delimiter d '='
      if pEq.1 then
        let d := register_token (register_token pEq.2 .object) .equal_sign
        opening_bracket_link st d
      else
        let pBr := delimiter pEq.2 '{'
        if pBr.1 ∧ pBr.2.raw_value.2 ≠ LVT.none then
          let d := register_token (register_token pBr.2 .object) .opening_bracket
          opening_bracket_link st d
        else if is_newline (curChar pBr.2) then
          let d := register_token (register_token pBr.2 .array) .flush_value
          opening_bracket_link st d
        else
          let pBr2 := delimiter pBr.2 '{'
          if pBr2.1 ∧ pBr2.2.raw_value.2 = LVT.none then
            let d := register_token pBr2.2 .array
            -- the argument luco::node(node_type::array) allocates its fresh
            -- array cell before insert runs
            match insert (st.store ++ [Cell.arr []]) (objsTop d) (keysTop d).1
                (.node st.store.length) with
            | .error e => (.error (.lucoErr e), { st with d := d })
            | .ok (s', id) =>
              let d := { d with luco_objs := id :: d.luco_objs }
              let d := register_token d .transient_bracket
              (.ok true, { st with d := d, store := s' })
          else (.error (.lucoErr .parsing_error), { st with d := pBr2.2 })
    else
      opening_bracket_common st pEnd.2
where
  /-- the common `insert`/`push_back` tail of the `=` / `key{` / newline
  resolutions -/
  opening_bracket_link (st : PState) (d : ParsingData) : Except Fail Bool × PState :=
    let argCell : Cell :=
      if topCtx d = some .flush_value then .arr [] else .obj []
    let r : Except ErrorType (Store × Nat) :=
      if topCtx d = some .opening_bracket ∨ topCtx d = some .equal_sign ∨
          topCtx d = some .flush_value then
        if is_object st.store (objsTop d) then
          insert (st.store ++ [argCell]) (objsTop d) (keysTop d).1
            (.node st.store.length)
        else
          push_back (st.store ++ [argCell]) (objsTop d) (.node st.store.length)
      else .error .none
    let d :=
      if topCtx d = some .opening_bracket ∨ topCtx d = some .equal_sign then
        let d := { d with keys := d.raw_value :: d.keys }
        { d with raw_value := ("", LVT.none) }
      else d
    match r with
    | .error e => (.error (.lucoErr e), { st with d := d })
    | .ok (s', id) =>
      let d := { d with luco_objs := id :: d.luco_objs }
      (.ok true, { st with d := d, store := s' })
  /-- the trailing `if (is_registered_token(transient_bracket))` block -/
  opening_bracket_common (st : PState) (d : ParsingData) : Except Fail Bool × PState :=
    if is_registered_token d .transient_bracket then
      if d.raw_value.2 = LVT.none ∧ is_newline (curChar d) then
        (.ok true, { st with d := d })
      else
        let r := handle_empty_in_string d d.raw_value.2 (curChar d)
        let d := { r.2.1 with raw_value := (r.2.1.raw_value.1, r.2.2) }
        if r.1 then
          let d :=
            if ¬ end_of_string d.raw_value.2 then
              { d with raw_value := (d.raw_value.1.push (curChar d), d.raw_value.2) }
            else d
          (.ok true, { st with d := d })
        else (.ok false, { st with d := d })
    else (.ok false, { st with d := d })

/-- Embedding of `closing_bracket::handle_token` (parser.hpp lines 1319-1413). -/
def closing_bracket_handle_token (st : PState) : Except Fail Bool × PState :=
  let d := st.d
  -- is_token: handle_is({object, array}) && delimiter('}')
  let pTok :=
    if handle_is d [.object, .array] then delimiter d '}'
    else (false, d)
  let d := if pTok.1 then register_token pTok.2 .closing_bracket else pTok.2
  if is_registered_token d .closing_bracket then
    let d := unregister_token d
    let d := setKeysTop d ("", LVT.none)
    if topCtx d ≠ some .object ∧ topCtx d ≠ some .array then
      (.error (.lucoErr .parsing_error), { st with d := d })
    else
      -- prepare_for_next_token
      let d := unregister_token d
      let d :=
        if topCtx d = some .object then { d with keys := d.keys.tail } else d
      let d := { d with luco_objs := d.luco_objs.tail }
      if d.hierarchy = [] then
        (.error (.lucoErr .parsing_error), { st with d := d })
      else (.ok true, { st with d := d })
  else
    if is_registered_token d .transient_bracket then
      let pBr := delimiter d '}'
      if pBr.1 then
        let d := unregister_token pBr.2
        -- the argument luco::node(node_type::object) allocates first
        match insert (st.store ++ [Cell.obj []]) (objsTop d) (keysTop d).1
            (.node st.store.length) with
        | .error e => (.error (.lucoErr e), { st with d := d })
        | .ok (s', _) => (.ok true, { st with d := d, store := s' })
      else (.ok false, { st with d := pBr.2 })
    else (.ok false, { st with d := d })

/-- Embedding of `syntax_error` (parser.hpp lines 1424-1485). -/
def syntax_error_check (st : PState) : Except Fail Bool × PState :=
  let d := st.d
  if is_empty_newline (curChar d) then (.ok false, st)
  else if d.hierarchy = [] then (.error (.lucoErr .parsing_error), st)
  else
    let p1 :=
      if d.raw_value.2 = LVT.escaped_string_newline_qouted_1 then
        let pb := delimiter d '\\'
        (!pb.1, pb.2)
      else (false, d)
    if p1.1 then (.error (.lucoErr .parsing_error), { st with d := p1.2 })
    else
      let d := p1.2
      let p2 :=
        if d.raw_value.2 = LVT.escaped_string_newline_qouted_2 then
          let pb := delimiter d '\\'
          (!pb.1, pb.2)
        else (false, d)
      if p2.1 then (.error (.lucoErr .parsing_error), { st with d := p2.2 })
      else
        let d := p2.2
        if d.raw_value.2 = LVT.escaped_string_newline_unqouted ∧ d.eof then
          (.error (.lucoErr .parsing_error), { st with d := d })
        else if d.raw_value.2 = LVT.end_string_1 ∨ d.raw_value.2 = LVT.end_string_2 then
          (.error (.lucoErr .parsing_error), { st with d := d })
        else if d.keys ≠ [] ∧ end_of_string (keysTop d).2 ∧ d.hierarchy ≠ [] ∧
            topCtx d = some .key then
          (.error (.lucoErr .parsing_error), { st with d := d })
        else if end_of_string d.raw_value.2 ∧ d.hierarchy ≠ [] ∧
            topCtx d = some .value then
          (.error (.lucoErr .parsing_error), { st with d := d })
        else
          let p3 :=
            if d.hierarchy ≠ [] ∧ topCtx d = some .object then delimiter d '{'
            else (false, d)
          if p3.1 then (.error (.lucoErr .parsing_error), { st with d := p3.2 })
          else
            let d := p3.2
            let p4 := delimiter d '}'
            -- C++: `(top != object || top != array)` — a tautology, kept as is
            if p4.1 ∧ p4.2.hierarchy ≠ [] ∧
                (topCtx p4.2 ≠ some .object ∨ topCtx p4.2 ≠ some .array) then
              (.error (.lucoErr .parsing_error), { st with d := p4.2 })
            else (.ok false, { st with d := p4.2 })

/-- Embedding of `parser::parsing` (parser.hpp lines 1508-1540): offer the character to
the handlers in order, stopping at the first that consumes it
(`done_or_not_ok`). -/
def parsing (st : PState) : Except Fail Unit × PState :=
  match comment_handle_token st with
  | (.error e, st') => (.error e, st')
  | (.ok true, st') => (.ok (), st')
  | (.ok false, st') =>
  match luco_key_handle_token st' with
  | (.error e, st') => (.error e, st')
  | (.ok true, st') => (.ok (), st')
  | (.ok false, st') =>
  match luco_value_handle_token st' with
  | (.error e, st') => (.error e, st')
  | (.ok true, st') => (.ok (), st')
  | (.ok false, st') =>
  match opening_bracket_handle_token st' with
  | (.error e, st') => (.error e, st')
  | (.ok true, st') => (.ok (), st')
  | (.ok false, st') =>
  match closing_bracket_handle_token st' with
  | (.error e, st') => (.error e, st')
  | (.ok true, st') => (.ok (), st')
  | (.ok false, st') =>
  match syntax_error_check st' with
  | (.error e, st') => (.error e, st')
  | (_, st') => (.ok (), st')

/-- The inner character loop of `try_parse(const std::string&)`
(parser.hpp lines 1647-1659): advance `data.i` over the buffered line,
re-processing the same index when `shift_index_backward_for_oldnewline`
was set (`data.i--` before the loop's `data.i++`).  `fuel` bounds the
number of steps. -/
def step_chars : Nat → PState → Except Fail Unit × PState
  | 0, st => (.error .outOfFuel, st)
  | fuel + 1, st =>
    if st.d.i < st.d.line.length then
      match parsing st with
      | (.error e, st') => (.error e, st')
      | (.ok (), st') =>
        if st'.d.shift_index_backward_for_oldnewline then
          step_chars fuel
            { st' with d := { st'.d with shift_index_backward_for_oldnewline := false } }
        else
          step_chars fuel { st' with d := { st'.d with i := st'.d.i + 1 } }
    else (.ok (), st)

/-- The outer loop of `try_parse(const std::string&)` (parser.hpp lines
1641-1664): append each input character to the line buffer and process
the buffer only when its last character is `'\n'`, `','` or `'}'` — a
trailing fragment without such a terminator is **never** processed. -/
def feed_chars : List Char → PState → Except Fail Unit × PState
  | [], st => (.ok (), st)
  | ch :: rest, st =>
    let st := { st with d := { st.d with line := st.d.line ++ [ch] } }
    if ch = '\n' ∨ ch = ',' ∨ ch = '}' then
      let st := { st with d := { st.d with i := 0 } }
      match step_chars (8 * (st.d.line.length + 2)) st with
      | (.error e, st') => (.error e, st')
      | (.ok (), st') =>
        feed_chars rest
          { st' with d := { st'.d with line := [], line_number := st'.d.line_number + 1 } }
    else feed_chars rest st

/-- Embedding of `parser::try_parse(const std::string&)` (parser.hpp lines 1628-1673):
root object node, initial `object` context and empty key frame; feed the
characters; finally reject a dangling nested comment.  The function is
`noexcept`, so a `.cppExc` outcome means `std::terminate` at run time. -/
def try_parse (raw : String) : Except Fail (Store × Nat) :=
  let d : ParsingData :=
    { line := [], i := 0, line_number := 1,
      shift_index_backward_for_oldnewline := false, eof := false,
      keys := [("", LVT.none)], luco_objs := [0],
      escaped_special_char := (0, false, '\x00'),
      raw_value := ("", LVT.none),
      hierarchy := [(.object, (1, 0))] }
  let st : PState := { d := d, store := [Cell.obj []], brackets_count := 0 }
  match feed_chars raw.data st with
  | (.error e, _) => .error e
  | (.ok (), st') =>
    if topCtx st'.d = some .nested_comment then .error (.lucoErr .parsing_error)
    else .ok (st'.store, 0)

/-! ## Order lemmas for the map keys -/

theorem char_toNat_inj {a b : Char} (h : a.toNat = b.toNat) : a = b := by
  have h2 := congrArg Char.ofNat h
  rwa [Char.ofNat_toNat, Char.ofNat_toNat] at h2

theorem charListLt_irrefl : ∀ l, charListLt l l = false
  | [] => rfl
  | a :: as => by
    simp only [charListLt, Nat.lt_irrefl, if_false]
    exact charListLt_irrefl as

theorem charListLt_antisymm :
    ∀ a b, charListLt a b = false → charListLt b a = false → a = b
  | [], [], _, _ => rfl
  | [], _ :: _, h, _ => by simp [charListLt] at h
  | _ :: _, [], _, h => by simp [charListLt] at h
  | a :: as, b :: bs, h1, h2 => by
    simp only [charListLt] at h1 h2
    rcases Nat.lt_trichotomy a.toNat b.toNat with hab | hab | hab
    · rw [if_pos hab] at h1
      exact absurd h1 (by simp)
    · have hc : a = b := char_toNat_inj hab
      subst hc
      rw [if_neg (Nat.lt_irrefl _), if_neg (Nat.lt_irrefl _)] at h1 h2
      exact congrArg (a :: ·) (charListLt_antisymm as bs h1 h2)
    · rw [if_pos hab] at h2
      exact absurd h2 (by simp)

theorem charListLt_trans :
    ∀ a b c, charListLt a b = true → charListLt b c = true →
      charListLt a c = true
  | [], _ :: _, c, _, h2 => by
    cases c with
    | nil => simp [charListLt] at h2
    | cons z zs => simp [charListLt]
  | [], [], _, h1, _ => by simp [charListLt] at h1
  | _ :: _, [], _, h1, _ => by simp [charListLt] at h1
  | _ :: _, _ :: _, [], _, h2 => by simp [charListLt] at h2
  | a :: as, b :: bs, c :: cs, h1, h2 => by
    simp only [charListLt] at h1 h2 ⊢
    rcases Nat.lt_trichotomy a.toNat b.toNat with hab | hab | hab
    · rcases Nat.lt_trichotomy b.toNat c.toNat with hbc | hbc | hbc
      · rw [if_pos (Nat.lt_trans hab hbc)]
      · rw [← hbc] at *
        rw [if_pos hab]
      · rw [if_neg (Nat.lt_asymm hbc), if_pos hbc] at h2
        exact absurd h2 (by simp)
    · have hc : a = b := char_toNat_inj hab
      subst hc
      rw [if_neg (Nat.lt_irrefl _), if_neg (Nat.lt_irrefl _)] at h1
      rcases Nat.lt_trichotomy a.toNat c.toNat with hac | hac | hac
      · rw [if_pos hac]
      · have hc2 : a = c := char_toNat_inj hac
        subst hc2
        rw [if_neg (Nat.lt_irrefl _), if_neg (Nat.lt_irrefl _)] at h2 ⊢
        exact charListLt_trans as bs cs h1 h2
      · rw [if_neg (Nat.lt_asymm hac), if_pos hac] at h2
        exact absurd h2 (by simp)
    · rw [if_neg (Nat.lt_asymm hab), if_pos hab] at h1
      exact absurd h1 (by simp)

theorem strLt_irrefl (a : String) : strLt a a = false :=
  charListLt_irrefl a.data

theorem strLt_antisymm {a b : String}
    (h1 : strLt a b = false) (h2 : strLt b a = false) : a = b := by
  have hd : a.data = b.data := charListLt_antisymm _ _ h1 h2
  cases a
  cases b
  exact congrArg String.mk hd

theorem strLt_trans {a b c : String}
    (h1 : strLt a b = true) (h2 : strLt b c = true) : strLt a c = true :=
  charListLt_trans _ _ _ h1 h2

theorem strLt_ne {a b : String} (h : strLt a b = true) : a ≠ b := by
  rintro rfl
  rw [strLt_irrefl] at h
  exact absurd h (by simp)

/-! ## `mapInsert` / lookup lemmas -/

/-- Unfolding `List.lookup` over a cons cell, with propositional keys. -/
theorem lookup_cons (k a : String) (v : Nat) (rest : List (String × Nat)) :
    List.lookup k ((a, v) :: rest) =
      if k = a then some v else List.lookup k rest := by
  by_cases h : k = a
  · subst h
    simp [List.lookup]
  · have hb : (k == a) = false := by simpa using h
    simp [List.lookup, hb, h]

/-- strict sortedness of an object cell's entries -/
def MapSorted (m : List (String × Nat)) : Prop :=
  m.Pairwise (fun e e' => strLt e.1 e'.1 = true)

theorem lookup_mapInsert (m : List (String × Nat)) (k : String) (v : Nat)
    (k' : String) :
    (mapInsert m k v).lookup k' = if k' = k then some v else m.lookup k' := by
  induction m with
  | nil =>
    by_cases h : k' = k <;> simp [mapInsert, lookup_cons, h]
  | cons e rest ih =>
    obtain ⟨k₀, v₀⟩ := e
    cases h1 : strLt k k₀ with
    | true =>
      have hne : k ≠ k₀ := strLt_ne h1
      by_cases h : k' = k <;> by_cases h0 : k' = k₀ <;>
        simp_all [mapInsert, lookup_cons]
    | false =>
      cases h2 : strLt k₀ k with
      | true =>
        have hne : k₀ ≠ k := strLt_ne h2
        by_cases h : k' = k <;> by_cases h0 : k' = k₀ <;>
          simp_all [mapInsert, lookup_cons]
      | false =>
        have hk : k = k₀ := strLt_antisymm h1 h2
        subst hk
        by_cases h : k' = k <;> simp [mapInsert, h1, h2, lookup_cons, h]

theorem mem_mapInsert_key (m : List (String × Nat)) (k : String) (v : Nat) :
    ∀ e ∈ mapInsert m k v, e.1 = k ∨ e.1 ∈ m.map Prod.fst := by
  induction m with
  | nil => simp [mapInsert]
  | cons e₀ rest ih =>
    obtain ⟨k₀, v₀⟩ := e₀
    intro e he
    cases h1 : strLt k k₀ with
    | true =>
      rw [mapInsert, h1, if_pos rfl] at he
      rcases List.mem_cons.mp he with rfl | he
      · exact Or.inl rfl
      · rcases List.mem_cons.mp he with rfl | he
        · simp
        · exact Or.inr (by simp; right; exact ⟨e.2, by simpa using he⟩)
    | false =>
      cases h2 : strLt k₀ k with
      | true =>
        rw [mapInsert, h1, h2] at he
        simp only [Bool.false_eq_true, if_false, if_true] at he
        rcases List.mem_cons.mp he with rfl | he
        · simp
        · rcases ih e he with h | h
          · exact Or.inl h
          · exact Or.inr (by simp [h])
      | false =>
        rw [mapInsert, h1, h2] at he
        simp only [Bool.false_eq_true, if_false] at he
        rcases List.mem_cons.mp he with rfl | he
        · exact Or.inl rfl
        · exact Or.inr (by simp; right; exact ⟨e.2, by simpa using he⟩)

theorem mapSorted_mapInsert {m : List (String × Nat)} (k : String) (v : Nat)
    (hs : MapSorted m) : MapSorted (mapInsert m k v) := by
  induction m with
  | nil =>
    rw [MapSorted, mapInsert]
    simp
  | cons e rest ih =>
    obtain ⟨k₀, v₀⟩ := e
    rw [MapSorted, List.pairwise_cons] at hs
    obtain ⟨hall, hrest⟩ := hs
    cases h1 : strLt k k₀ with
    | true =>
      rw [MapSorted, mapInsert, h1, if_pos rfl, List.pairwise_cons]
      constructor
      · intro e' he'
        rcases List.mem_cons.mp he' with rfl | hmem
        · exact h1
        · exact strLt_trans h1 (hall e' hmem)
      · rw [List.pairwise_cons]
        exact ⟨hall, hrest⟩
    | false =>
      cases h2 : strLt k₀ k with
      | true =>
        rw [MapSorted, mapInsert, h1, h2]
        simp only [Bool.false_eq_true, if_false, if_true]
        rw [List.pairwise_cons]
        refine ⟨?_, ih hrest⟩
        intro e' he'
        rcases mem_mapInsert_key rest k v e' he' with h | h
        · rw [h]; exact h2
        · obtain ⟨x, hx, hfst⟩ := List.mem_map.mp h
          have hh := hall x hx
          rwa [hfst] at hh
      | false =>
        rw [MapSorted, mapInsert, h1, h2]
        simp only [Bool.false_eq_true, if_false]
        rw [List.pairwise_cons]
        have hk : k = k₀ := strLt_antisymm h1 h2
        subst hk
        exact ⟨hall, hrest⟩

theorem lookup_isSome_iff (t : List (String × Nat)) (k : String) :
    (t.lookup k).isSome ↔ k ∈ t.map Prod.fst := by
  induction t with
  | nil => simp [List.lookup]
  | cons e rest ih =>
    obtain ⟨k₀, v₀⟩ := e
    rw [lookup_cons]
    by_cases h : k = k₀ <;> simp [h, ih]

theorem lookup_eq_none_of_not_mem {t : List (String × Nat)} {k : String}
    (h : k ∉ t.map Prod.fst) : t.lookup k = Option.none := by
  cases ht : t.lookup k with
  | none => rfl
  | some v =>
    exact absurd ((lookup_isSome_iff t k).mp (by simp [ht])) h

theorem mem_of_lookup_some {t : List (String × Nat)} {k : String} {v : Nat}
    (h : t.lookup k = some v) : k ∈ t.map Prod.fst :=
  (lookup_isSome_iff t k).mp (by simp [h])

theorem mapSorted_keys_nodup {l : List (String × Nat)} (h : MapSorted l) :
    (l.map Prod.fst).Nodup := by
  rw [MapSorted] at h
  have h2 := h.map (f := Prod.fst)
    (S := fun a b => a ≠ b)
    (by intro a b hab; exact strLt_ne hab)
  exact h2

/-- Two key-sorted association lists with the same lookups are equal
(`std::map` canonicity). -/
theorem mapSorted_ext :
    ∀ {l l' : List (String × Nat)}, MapSorted l → MapSorted l' →
      (∀ k, l.lookup k = l'.lookup k) → l = l'
  | [], [], _, _, _ => rfl
  | [], (k₁, v₁) :: _, _, _, h => by
    have hh := h k₁
    rw [lookup_cons, if_pos rfl] at hh
    simp [List.lookup] at hh
  | (k₀, v₀) :: _, [], _, _, h => by
    have hh := h k₀
    rw [lookup_cons, if_pos rfl] at hh
    simp [List.lookup] at hh
  | (k₀, v₀) :: t, (k₁, v₁) :: t', hl, hl', h => by
    rw [MapSorted, List.pairwise_cons] at hl hl'
    obtain ⟨hall, ht⟩ := hl
    obtain ⟨hall', ht'⟩ := hl'
    have hk : k₀ = k₁ := by
      by_contra hne
      have h0 := h k₀
      rw [lookup_cons, if_pos rfl, lookup_cons, if_neg hne] at h0
      have h1 := h k₁
      rw [lookup_cons, if_neg (fun hh => hne hh.symm), lookup_cons,
        if_pos rfl] at h1
      obtain ⟨x, hx, hfx⟩ := List.mem_map.mp (mem_of_lookup_some h0.symm)
      obtain ⟨y, hy, hfy⟩ := List.mem_map.mp (mem_of_lookup_some h1)
      have ha := hall' x hx
      have hb := hall y hy
      rw [hfx] at ha
      rw [hfy] at hb
      exact absurd (strLt_trans ha hb) (by simp [strLt_irrefl])
    subst hk
    have hv : v₀ = v₁ := by
      have h0 := h k₀
      rw [lookup_cons, if_pos rfl, lookup_cons, if_pos rfl] at h0
      exact Option.some.inj h0
    subst hv
    have hts : t = t' := by
      refine mapSorted_ext ht ht' ?_
      intro k
      by_cases hk : k = k₀
      · subst hk
        rw [lookup_eq_none_of_not_mem, lookup_eq_none_of_not_mem]
        · intro hmem
          obtain ⟨y, hy, hfy⟩ := List.mem_map.mp hmem
          exact absurd (hall' y hy) (by rw [hfy]; simp [strLt_irrefl])
        · intro hmem
          obtain ⟨y, hy, hfy⟩ := List.mem_map.mp hmem
          exact absurd (hall y hy) (by rw [hfy]; simp [strLt_irrefl])
      · have hh := h k
        rwa [lookup_cons, if_neg hk, lookup_cons, if_neg hk] at hh
    rw [hts]

/-! ## `objMerge` lemmas (the two loops of the object branch of
`node::operator+`) -/

theorem mapSorted_insFold (l : List (String × Nat)) :
    ∀ init, MapSorted init →
      MapSorted (l.foldl (fun acc e => mapInsert acc e.1 e.2) init) := by
  induction l with
  | nil => intro init h; exact h
  | cons e rest ih =>
    intro init h
    exact ih (mapInsert init e.1 e.2) (mapSorted_mapInsert e.1 e.2 h)

theorem lookup_insFold (l : List (String × Nat))
    (hnd : (l.map Prod.fst).Nodup) (k : String) :
    ∀ init, (l.foldl (fun acc e => mapInsert acc e.1 e.2) init).lookup k =
      match l.lookup k with
      | some v => some v
      | Option.none => init.lookup k := by
  induction l with
  | nil => intro init; simp [List.lookup]
  | cons e rest ih =>
    obtain ⟨k₀, v₀⟩ := e
    simp only [List.map_cons, List.nodup_cons] at hnd
    obtain ⟨hk₀, hnd⟩ := hnd
    intro init
    rw [List.foldl_cons, ih hnd, lookup_cons]
    by_cases h : k = k₀
    · subst h
      rw [lookup_eq_none_of_not_mem hk₀, if_pos rfl,
        lookup_mapInsert, if_pos rfl]
    · rw [if_neg h, lookup_mapInsert, if_neg h]

theorem mapSorted_objMerge (ma mb : List (String × Nat)) :
    MapSorted (objMerge ma mb) :=
  mapSorted_insFold mb _ (mapSorted_insFold ma [] (by rw [MapSorted]; simp))

theorem lookup_objMerge (ma mb : List (String × Nat))
    (hna : (ma.map Prod.fst).Nodup) (hnb : (mb.map Prod.fst).Nodup)
    (k : String) :
    (objMerge ma mb).lookup k =
      match mb.lookup k with
      | some v => some v
      | Option.none => ma.lookup k := by
  rw [objMerge, lookup_insFold mb hnb, lookup_insFold ma hna]
  cases mb.lookup k <;> cases ma.lookup k <;> simp [List.lookup]

/-- For objects with disjoint key sets the two loops commute. -/
theorem objMerge_comm (ma mb : List (String × Nat))
    (hna : (ma.map Prod.fst).Nodup) (hnb : (mb.map Prod.fst).Nodup)
    (hdisj : ∀ k, k ∈ ma.map Prod.fst → k ∈ mb.map Prod.fst → False) :
    objMerge ma mb = objMerge mb ma := by
  refine mapSorted_ext (mapSorted_objMerge ma mb) (mapSorted_objMerge mb ma) ?_
  intro k
  rw [lookup_objMerge ma mb hna hnb, lookup_objMerge mb ma hnb hna]
  cases hb : mb.lookup k with
  | none => cases ma.lookup k <;> simp
  | some v =>
    cases ha : ma.lookup k with
    | none => simp
    | some w =>
      exact absurd (hdisj k (mem_of_lookup_some ha) (mem_of_lookup_some hb)) id

/-! ## Read-out frame lemmas -/

theorem mapOpt_congr {f g : α → Option β} :
    ∀ l : List α, (∀ a ∈ l, f a = g a) → mapOpt f l = mapOpt g l
  | [], _ => rfl
  | a :: rest, h => by
    rw [mapOpt, mapOpt, h a (by simp),
      mapOpt_congr rest (fun x hx => h x (by simp [hx]))]

theorem Store.cell_eq_of_get?_eq {s s' : Store} {n : Nat}
    (h : s'.get? n = s.get? n) : s'.cell n = s.cell n := by
  rw [Store.cell, Store.cell, h]

/-- Cells strictly below `n` read out identically in two stores that agree
strictly below `n`, provided `s` is closed below `n`. -/
theorem readout_agree (s s' : Store) (n : Nat)
    (hag : ∀ i, i < n → s'.get? i = s.get? i) (hcl : ClosedBelow n s) :
    ∀ fuel id, id < n → readout fuel s' id = readout fuel s id := by
  intro fuel
  induction fuel with
  | zero => intro id _; rfl
  | succ fuel ih =>
    intro id hid
    have hcell : s'.cell id = s.cell id :=
      Store.cell_eq_of_get?_eq (hag id hid)
    rw [readout, readout, hcell]
    cases hc : s.cell id with
    | val v => rfl
    | arr l =>
      show (mapOpt (fun c => readout fuel s' c) l).map Tree.arr =
        (mapOpt (fun c => readout fuel s c) l).map Tree.arr
      have hch : ∀ c ∈ l, c < n := by
        intro c hc'
        refine hcl id hid c ?_
        rw [hc]
        exact hc'
      rw [mapOpt_congr l (fun c hcm => ih c (hch c hcm))]
    | obj m =>
      show (mapOpt (fun e => (readout fuel s' e.2).map (fun t => (e.1, t))) m).map
          Tree.obj =
        (mapOpt (fun e => (readout fuel s e.2).map (fun t => (e.1, t))) m).map
          Tree.obj
      have hch : ∀ e ∈ m, e.2 < n := by
        intro e he
        refine hcl id hid e.2 ?_
        rw [hc]
        exact List.mem_map.mpr ⟨e, he, rfl⟩
      rw [mapOpt_congr m (fun e hem => by rw [ih e.2 (hch e hem)])]

/-- A store modified only at cell `t` reads out identically from any node
that cannot reach `t`. -/
theorem readout_frame (s s' : Store) (t : Nat)
    (hag : ∀ i, i ≠ t → s'.get? i = s.get? i) :
    ∀ fuel m, reachB fuel s m t = false →
      readout (fuel + 1) s' m = readout (fuel + 1) s m := by
  intro fuel
  induction fuel with
  | zero =>
    intro m hr
    rw [reachB] at hr
    have hmt : m ≠ t := by simpa using hr
    have hcell : s'.cell m = s.cell m :=
      Store.cell_eq_of_get?_eq (hag m hmt)
    rw [readout, readout, hcell]
    cases s.cell m with
    | val v => rfl
    | arr l => cases l <;> rfl
    | obj m' => cases m' <;> rfl
  | succ fuel ih =>
    intro m hr
    rw [reachB, Bool.or_eq_false_iff] at hr
    obtain ⟨hmt, hch⟩ := hr
    have hmt : m ≠ t := by simpa using hmt
    rw [List.any_eq_false] at hch
    have hch' : ∀ c ∈ (s.cell m).children, reachB fuel s c t = false := by
      intro c hcm
      have hh := hch c hcm
      simpa using hh
    have hcell : s'.cell m = s.cell m :=
      Store.cell_eq_of_get?_eq (hag m hmt)
    rw [readout, readout, hcell]
    cases hc : s.cell m with
    | val v => rfl
    | arr l =>
      show (mapOpt (fun c => readout (fuel + 1) s' c) l).map Tree.arr =
        (mapOpt (fun c => readout (fuel + 1) s c) l).map Tree.arr
      refine congrArg _ (mapOpt_congr l (fun c hcm => ih c (hch' c ?_)))
      rw [hc]
      exact hcm
    | obj m' =>
      show (mapOpt (fun e => (readout (fuel + 1) s' e.2).map (fun t => (e.1, t)))
          m').map Tree.obj =
        (mapOpt (fun e => (readout (fuel + 1) s e.2).map (fun t => (e.1, t)))
          m').map Tree.obj
      refine congrArg _ (mapOpt_congr m' (fun e hem => ?_))
      rw [ih e.2 (hch' e.2 (by rw [hc]; exact List.mem_map.mpr ⟨e, hem, rfl⟩))]

/-! ## Store access helper lemmas -/

theorem get?_append_lt {l l₂ : Store} {i : Nat} (h : i < l.length) :
    (l ++ l₂).get? i = l.get? i := by
  rw [List.get?_eq_getElem?, List.get?_eq_getElem?]
  exact List.getElem?_append_left h

theorem get?_concat_self (l : Store) (a : Cell) :
    (l ++ [a]).get? l.length = some a := by
  rw [List.get?_eq_getElem?]
  exact List.getElem?_concat_length l a

theorem cell_append_lt {l l₂ : Store} {i : Nat} (h : i < l.length) :
    (l ++ l₂).cell i = l.cell i := by
  rw [Store.cell, Store.cell, get?_append_lt h]

theorem cell_set_self {l : Store} {i : Nat} (h : i < l.length) (a : Cell) :
    Store.cell (l.set i a) i = a := by
  rw [Store.cell, List.get?_set_eq_of_lt a h]
  rfl

theorem cell_set_ne {l : Store} {i j : Nat} (h : i ≠ j) (a : Cell) :
    Store.cell (l.set i a) j = l.cell j := by
  rw [Store.cell, Store.cell, List.get?_set_ne a l h]

/-- A successful `insert` returns a reference that `try_at` finds again
under the same key. -/
theorem insert_ok_try_at {s : Store} {n : Nat} {k : String} {a : InsArg}
    (hn : n < s.length) {s' : Store} {c : Nat}
    (h : insert s n k a = .ok (s', c)) : try_at_key s' n k = .ok c := by
  rw [insert] at h
  cases hcell : s.cell n with
  | val v => rw [hcell] at h; exact absurd h (by simp)
  | arr l => rw [hcell] at h; exact absurd h (by simp)
  | obj m =>
    rw [hcell] at h
    have hok : (Except.ok (((nodeOfArg s a).1.set n
          (Cell.obj (mapInsert m k (nodeOfArg s a).2)), (nodeOfArg s a).2)) :
        Except ErrorType (Store × Nat)) = .ok (s', c) := h
    have hpair := Except.ok.inj hok
    injection hpair with h1 h2
    subst h1
    subst h2
    have hlen : n < (nodeOfArg s a).1.length := by
      cases a with
      | value v => simpa [nodeOfArg] using Nat.lt_succ_of_lt hn
      | node id => simpa [nodeOfArg] using hn
    rw [try_at_key, cell_set_self hlen]
    show (match (mapInsert m k (nodeOfArg s a).2).lookup k with
      | some id => AtResult.ok id
      | Option.none => AtResult.err ErrorType.key_not_found) =
      AtResult.ok (nodeOfArg s a).2
    rw [lookup_mapInsert, if_pos rfl]

theorem contains_of_try_at {s : Store} {n : Nat} {k : String} {c : Nat}
    (h : try_at_key s n k = .ok c) : contains s n k = true := by
  rw [try_at_key] at h
  cases hcell : s.cell n with
  | val v => rw [hcell] at h; exact absurd h (by simp)
  | arr l => rw [hcell] at h; exact absurd h (by simp)
  | obj m =>
    rw [hcell] at h
    have h' : (match m.lookup k with
        | some id => AtResult.ok id
        | Option.none => AtResult.err ErrorType.key_not_found) =
        AtResult.ok c := h
    rw [contains, hcell]
    show (m.lookup k).isSome = true
    cases hl : m.lookup k with
    | none =>
      rw [hl] at h'
      exact absurd h' (by simp)
    | some id => simp [hl]

/-! ## The claims -/

/-- Claim C1 (code bug).  The claim — backed by the spec — says
`try_at(large_index)` on an array returns a `KeyNotFound` error and never
crashes.  The code (`node::try_at(const size_t)`, part_001 lines
2094-2103) performs no bounds check: it returns
`arr.value()->at(array_index)`, and `std::vector::at` throws
`std::out_of_range` inside this `noexcept` member, which calls
`std::terminate`.  Concretely: on a node holding an empty array,
`try_at(0)` terminates the program instead of returning `KeyNotFound`. -/
theorem C1_try_at_out_of_range_terminates :
    try_at_idx [Cell.arr []] 0 0 = AtResult.terminate ∧
    try_at_idx [Cell.arr [1], Cell.val (Value.intV 7)] 0 5 =
      AtResult.terminate ∧
    AtResult.terminate ≠ AtResult.err ErrorType.key_not_found :=
  ⟨rfl, rfl, by decide⟩

/-- Claim C2 (code bug).  The claim — backed by the spec — says
`parser::try_parse` never throws and always returns a result.  But the
scalar-typing step `luco_simple_types::get_type` classifies the lexeme
`"."` as a float (`is_number` accepts a lone `'.'`) and then calls
`std::stod(".")`, which throws `std::invalid_argument`; nothing catches
it, and `try_parse` is `noexcept`, so the program terminates.  (An
out-of-range integer literal likewise makes `std::stoll` throw
`std::out_of_range`.)  The embedding keeps the escaping exception as an
explicit `.cppExc` outcome. -/
theorem C2_try_parse_exception_escapes :
    is_number "." = NumberTypes.float ∧
    get_type "." = Except.error CppExc.invalid_argument ∧
    try_parse "key = .\n" = Except.error (Fail.cppExc CppExc.invalid_argument) ∧
    try_parse "k = 99999999999999999999\n" =
      Except.error (Fail.cppExc CppExc.out_of_range) :=
  ⟨rfl, rfl, rfl, rfl⟩

/-- Claim C3 (code bug).  The claim — backed by the spec — says float
stringification only strips trailing zeros, never removing a non-zero
fractional digit, so `stringify(1.205) = "1.205"`.  The
`pop_zeros_at_the_end` loop in `value::stringify` (part_001 lines
638-671) mishandles interior zeros: whenever the fixed-precision string
ends in `… '0' d '0'⁺` (d non-zero) the digit `d` is also popped.
`std::to_string(1.205) = "1.205000"` comes out as `"1.20"`, and
`std::to_string(5.05) = "5.050000"` as `"5.0"`.  The claim's own positive
examples 5.0 and 5.5 do work. -/
theorem C3_stringify_drops_nonzero_digit :
    pop_zeros_at_the_end "1.205000" = "1.20" ∧
    pop_zeros_at_the_end "5.050000" = "5.0" ∧
    pop_zeros_at_the_end "5.000000" = "5.0" ∧
    pop_zeros_at_the_end "5.500000" = "5.5" ∧
    ("1.20" : String) ≠ "1.205" :=
  ⟨rfl, rfl, rfl, rfl, by decide⟩

/-- Claim C4 (counterexample).  The claim says a pending lexeme at
end-of-input is committed as if a newline followed, so
`parse("key = value")` equals `parse("key = value\n")`.  In
`try_parse(const std::string&)` the buffered line is only processed when
its last character is `'\n'`, `','` or `'}'` (parser.hpp line 1644); the
trailing fragment `"key = value"` is never processed at all, so the
parse returns an **empty** root object, not a one-entry object. -/
theorem C4_counterexample_trailing_fragment :
    (∃ st : Store × Nat, try_parse "key = value" = .ok st ∧
      readout 9 st.1 st.2 = some (Tree.obj [])) ∧
    (∃ st : Store × Nat, try_parse "key = value\n" = .ok st ∧
      readout 9 st.1 st.2 =
        some (Tree.obj [("key", Tree.val (Value.str "value"))])) ∧
    Tree.obj [] ≠ Tree.obj [("key", Tree.val (Value.str "value"))] := by
  refine ⟨⟨_, rfl, rfl⟩, ⟨_, rfl, rfl⟩, ?_⟩
  intro h
  injection h with h'
  exact absurd h' (by simp)

/-- Claim C4 (amended).  For the string-input parser, an input whose last
character is not `'\n'`, `','` or `'}'` leaves its trailing fragment
unprocessed: the pending lexeme is dropped, so `parse("key = value")`
yields an empty root object while `parse("key = value\n")` yields the
single-entry object.  (The flush-as-if-newline behaviour belongs to the
file-based overload, which appends `"\n"` to every line it reads.) -/
theorem C4_amended_trailing_fragment_dropped :
    (∃ st : Store × Nat, try_parse "key = value" = .ok st ∧
      readout 9 st.1 st.2 = some (Tree.obj [])) ∧
    (∃ st : Store × Nat, try_parse "key = value\n" = .ok st ∧
      readout 9 st.1 st.2 =
        some (Tree.obj [("key", Tree.val (Value.str "value"))])) :=
  ⟨⟨_, rfl, rfl⟩, ⟨_, rfl, rfl⟩⟩

/-- Claim C5 (counterexample).  The claim says the tree produced by `+`
shares no mutable state with its sources, so mutating a child of
`c = a + b` leaves `a` unchanged.  But the object branch of
`node::operator+` copies each child's `shared_ptr`
(`setting_allowed_node_type`, part_001 line 1531), so `c`'s children
*alias* `a`'s children.  Concretely, with `a = {"k": {"m": 1}}` (heap:
cells 0..2) and `b = {}` (cell 3): after `c = a + b` (cell 4),
`c.at("k")` is cell 1 — the same cell as `a.at("k")` — and an in-place
`insert("x", 5)` through it makes `a.at("k").contains("x")` flip from
false to true: `a` was mutated through `c`. -/
theorem C5_counterexample_plus_shares_children :
    node_add [Cell.val (Value.intV 1), Cell.obj [("m", 0)],
        Cell.obj [("k", 1)], Cell.obj []] 2 3 =
      .ok ([Cell.val (Value.intV 1), Cell.obj [("m", 0)],
        Cell.obj [("k", 1)], Cell.obj [], Cell.obj [("k", 1)]], 4) ∧
    try_at_key [Cell.val (Value.intV 1), Cell.obj [("m", 0)],
        Cell.obj [("k", 1)], Cell.obj [], Cell.obj [("k", 1)]] 4 "k" =
      .ok 1 ∧
    try_at_key [Cell.val (Value.intV 1), Cell.obj [("m", 0)],
        Cell.obj [("k", 1)], Cell.obj [], Cell.obj [("k", 1)]] 2 "k" =
      .ok 1 ∧
    contains [Cell.val (Value.intV 1), Cell.obj [("m", 0)],
        Cell.obj [("k", 1)], Cell.obj []] 1 "x" = false ∧
    insert [Cell.val (Value.intV 1), Cell.obj [("m", 0)],
        Cell.obj [("k", 1)], Cell.obj [], Cell.obj [("k", 1)]] 1 "x"
        (.value (Value.intV 5)) =
      .ok ([Cell.val (Value.intV 1), Cell.obj [("m", 0), ("x", 5)],
        Cell.obj [("k", 1)], Cell.obj [], Cell.obj [("k", 1)],
        Cell.val (Value.intV 5)], 5) ∧
    contains [Cell.val (Value.intV 1), Cell.obj [("m", 0), ("x", 5)],
        Cell.obj [("k", 1)], Cell.obj [], Cell.obj [("k", 1)],
        Cell.val (Value.intV 5)] 1 "x" = true :=
  ⟨rfl, rfl, rfl, rfl, rfl, rfl⟩

/-- Claim C5 (amended).  After `c = a + b` on object nodes, *reshaping* a
child of `c` with `set(x)` — which allocates a fresh cell and rebinds the
child's pointer, exactly the claim's example `c.at(k).set(x)` — leaves
`a` and `b` unchanged: the mutation touches only the freshly allocated
result cell.  (The guarantee does not extend to in-place container
mutations such as `insert`/`push_back` through `c`'s children, which `+`
shares with its sources — see the counterexample.) -/
theorem C5_amended_set_through_sum_preserves_sources (s : Store) (a b : Nat)
    (ma mb : List (String × Nat)) (k : String) (x : Value) (fuel : Nat)
    (hcl : ClosedBelow s.length s)
    (ha : s.cell a = Cell.obj ma) (hb : s.cell b = Cell.obj mb)
    (hal : a < s.length) (hbl : b < s.length) :
    node_add s a b = .ok (s ++ [Cell.obj (objMerge ma mb)], s.length) ∧
    readout fuel
        (set_child_value (s ++ [Cell.obj (objMerge ma mb)]) s.length k x) a =
      readout fuel s a ∧
    readout fuel
        (set_child_value (s ++ [Cell.obj (objMerge ma mb)]) s.length k x) b =
      readout fuel s b := by
  have hadd : node_add s a b = .ok (s ++ [Cell.obj (objMerge ma mb)], s.length) := by
    rw [node_add, if_neg (by rw [typeOf, typeOf, ha, hb]; intro h; exact h rfl),
      ha, hb]
  have hcell : (s ++ [Cell.obj (objMerge ma mb)]).cell s.length =
      Cell.obj (objMerge ma mb) := by
    rw [Store.cell, get?_concat_self]
    rfl
  have hagree : ∀ i, i < s.length →
      (set_child_value (s ++ [Cell.obj (objMerge ma mb)]) s.length k x).get? i =
        s.get? i := by
    intro i hi
    rw [set_child_value, hcell]
    rw [List.get?_set_ne _ _ (Nat.ne_of_gt hi)]
    rw [get?_append_lt (by simpa using Nat.lt_succ_of_lt hi),
      get?_append_lt hi]
  exact ⟨hadd,
    readout_agree s _ s.length hagree hcl fuel a hal,
    readout_agree s _ s.length hagree hcl fuel b hbl⟩

/-- Witness for `C5_amended_set_through_sum_preserves_sources` at the
counterexample's heap: replacing `c.at("k")` wholesale with the scalar 5
leaves `a` (cell 2) and `b` (cell 3) unchanged. -/
theorem C5_amended_witness :
    (ClosedBelow 4 [Cell.val (Value.intV 1), Cell.obj [("m", 0)],
        Cell.obj [("k", 1)], Cell.obj []] ∧
      Store.cell [Cell.val (Value.intV 1), Cell.obj [("m", 0)],
        Cell.obj [("k", 1)], Cell.obj []] 2 = Cell.obj [("k", 1)] ∧
      Store.cell [Cell.val (Value.intV 1), Cell.obj [("m", 0)],
        Cell.obj [("k", 1)], Cell.obj []] 3 = Cell.obj [] ∧
      (2 : Nat) < 4 ∧ (3 : Nat) < 4) ∧
    (node_add [Cell.val (Value.intV 1), Cell.obj [("m", 0)],
        Cell.obj [("k", 1)], Cell.obj []] 2 3 =
      .ok ([Cell.val (Value.intV 1), Cell.obj [("m", 0)],
        Cell.obj [("k", 1)], Cell.obj []] ++
          [Cell.obj (objMerge [("k", 1)] [])], 4) ∧
    readout 6 (set_child_value ([Cell.val (Value.intV 1), Cell.obj [("m", 0)],
        Cell.obj [("k", 1)], Cell.obj []] ++
          [Cell.obj (objMerge [("k", 1)] [])]) 4 "k" (Value.intV 5)) 2 =
      readout 6 [Cell.val (Value.intV 1), Cell.obj [("m", 0)],
        Cell.obj [("k", 1)], Cell.obj []] 2 ∧
    readout 6 (set_child_value ([Cell.val (Value.intV 1), Cell.obj [("m", 0)],
        Cell.obj [("k", 1)], Cell.obj []] ++
          [Cell.obj (objMerge [("k", 1)] [])]) 4 "k" (Value.intV 5)) 3 =
      readout 6 [Cell.val (Value.intV 1), Cell.obj [("m", 0)],
        Cell.obj [("k", 1)], Cell.obj []] 3) :=
  ⟨⟨by decide, rfl, rfl, by decide, by decide⟩,
    C5_amended_set_through_sum_preserves_sources _ 2 3 [("k", 1)] [] "k"
      (Value.intV 5) 6 (by decide) rfl rfl (by decide) (by decide)⟩

/-! ## Characterising the scalar classifier (C6) -/

theorem isNumberScan_true_ne_some_false :
    ∀ l : List Char, isNumberScan l true ≠ some false
  | [] => by simp [isNumberScan]
  | c :: rest => by
    cases hd : c.isDigit with
    | true => simpa [isNumberScan, hd] using isNumberScan_true_ne_some_false rest
    | false => simp [isNumberScan, hd]

theorem isNumberScan_true_eq :
    ∀ l : List Char, isNumberScan l true = some true ↔ ∀ c ∈ l, c.isDigit = true
  | [] => by simp [isNumberScan]
  | c :: rest => by
    cases hd : c.isDigit with
    | true => simp [isNumberScan, hd, isNumberScan_true_eq rest]
    | false => simp [isNumberScan, hd]

theorem isNumberScan_false_int :
    ∀ l : List Char, isNumberScan l false = some false ↔ ∀ c ∈ l, c.isDigit = true
  | [] => by simp [isNumberScan]
  | c :: rest => by
    cases hd : c.isDigit with
    | true => simp [isNumberScan, hd, isNumberScan_false_int rest]
    | false =>
      by_cases hdot : c = '.'
      · subst hdot
        rw [isNumberScan, if_neg (by rw [hd]; simp), if_pos (by decide)]
        constructor
        · intro h
          exact absurd h (isNumberScan_true_ne_some_false rest)
        · intro h
          exact absurd (h '.' (by simp)) (by decide)
      · have hb : (c == '.' && !false) = false := by simp [hdot]
        rw [isNumberScan, if_neg (by rw [hd]; simp), if_neg (by rw [hb]; simp)]
        constructor
        · intro h
          exact absurd h (by simp)
        · intro h
          have hh := h c (by simp)
          rw [hd] at hh
          exact absurd hh (by simp)

theorem all_digit_iff_digitdot_and_no_dot (l : List Char) :
    (∀ c ∈ l, c.isDigit = true) ↔
      ((∀ c ∈ l, (c.isDigit || c == '.') = true) ∧ l.count '.' = 0) := by
  constructor
  · intro h
    refine ⟨fun c hc => by simp [h c hc], List.count_eq_zero.mpr ?_⟩
    intro hdot
    exact absurd (h '.' hdot) (by decide)
  · rintro ⟨hall, hcnt⟩
    intro c hc
    rcases Bool.or_eq_true_iff.mp (hall c hc) with h | h
    · exact h
    · exact absurd (by rw [show c = '.' from by simpa using h] at hc; exact hc)
        (List.count_eq_zero.mp hcnt)

theorem isNumberScan_false_float :
    ∀ l : List Char, isNumberScan l false = some true ↔
      ((∀ c ∈ l, (c.isDigit || c == '.') = true) ∧ l.count '.' = 1)
  | [] => by simp [isNumberScan]
  | c :: rest => by
    cases hd : c.isDigit with
    | true =>
      have hne : c ≠ '.' := by
        intro hc
        rw [hc] at hd
        exact absurd hd (by decide)
      have hne' : ('.' == c) = false := by
        simpa using fun hc => hne hc.symm
      rw [isNumberScan, if_pos hd]
      rw [isNumberScan_false_float rest]
      simp only [List.count_cons, hne', hd, List.mem_cons]
      constructor
      · rintro ⟨hall, hcnt⟩
        refine ⟨?_, by simp [hne, hcnt]⟩
        rintro c' (rfl | hc')
        · simp [hd]
        · exact hall c' hc'
      · rintro ⟨hall, hcnt⟩
        refine ⟨fun c' hc' => hall c' (by simp [hc']), ?_⟩
        simpa [hne] using hcnt
    | false =>
      by_cases hdot : c = '.'
      · subst hdot
        rw [isNumberScan, if_neg (by rw [hd]; simp), if_pos (by decide)]
        rw [isNumberScan_true_eq]
        rw [all_digit_iff_digitdot_and_no_dot rest]
        simp [List.count_cons]
      · have hb : (c == '.' && !false) = false := by simp [hdot]
        rw [isNumberScan, if_neg (by rw [hd]; simp), if_neg (by rw [hb]; simp)]
        constructor
        · intro h
          exact absurd h (by simp)
        · rintro ⟨hall, _⟩
          have hh := hall c (by simp)
          rw [hd] at hh
          simp only [Bool.false_or] at hh
          exact absurd (by simpa using hh) hdot

theorem is_number_eq_int_iff (s : String) :
    is_number s = NumberTypes.int ↔
      (s ≠ "" ∧ s.data.all Char.isDigit = true) := by
  rw [is_number]
  by_cases hs : s = ""
  · simp [hs]
  · rw [if_neg hs]
    rw [List.all_eq_true]
    constructor
    · intro h
      cases hscan : isNumberScan s.data false with
      | none => rw [hscan] at h; exact absurd h (by simp)
      | some b =>
        cases b with
        | true => rw [hscan] at h; exact absurd h (by simp)
        | false => exact ⟨hs, (isNumberScan_false_int s.data).mp hscan⟩
    · rintro ⟨_, hall⟩
      rw [(isNumberScan_false_int s.data).mpr hall]

theorem is_number_eq_float_iff (s : String) :
    is_number s = NumberTypes.float ↔
      (s ≠ "" ∧ s.data.all (fun c => c.isDigit || c == '.') = true ∧
        s.data.count '.' = 1) := by
  rw [is_number]
  by_cases hs : s = ""
  · simp [hs]
  · rw [if_neg hs]
    rw [List.all_eq_true]
    constructor
    · intro h
      cases hscan : isNumberScan s.data false with
      | none => rw [hscan] at h; exact absurd h (by simp)
      | some b =>
        cases b with
        | false => rw [hscan] at h; exact absurd h (by simp)
        | true =>
          obtain ⟨hall, hcnt⟩ := (isNumberScan_false_float s.data).mp hscan
          exact ⟨hs, hall, hcnt⟩
    · rintro ⟨_, hall, hcnt⟩
      rw [(isNumberScan_false_float s.data).mpr ⟨hall, hcnt⟩]

/-- The classifier as amended: claim C6 with only its parenthetical
dropped — the Double class is exactly "non-empty, every character a digit
except exactly one `'.'`", with **no** requirement of a digit, so the
lexeme `"."` is Double. -/
def classifyAmendedC6 (s : String) : LucoClass :=
  if s = "null" then .nullK
  else if s = "true" ∨ s = "on" then .boolK true
  else if s = "false" ∨ s = "off" then .boolK false
  else if s ≠ "" ∧ s.data.all Char.isDigit = true then .intK
  else if s ≠ "" ∧ s.data.all (fun c => c.isDigit || c == '.') = true ∧
      s.data.count '.' = 1 then .doubleK
  else .strK

/-- Claim C6 (counterexample).  The claim's classification — including its
parenthetical "a lexeme with no digit at all, such as `.`, is a String" —
disagrees with the code on the lexeme `"."`: `is_number` accepts a lone
`'.'` (the stateful `has_decimal` scan never requires a digit), so the
code classifies `"."` as Double, not String. -/
theorem C6_counterexample_dot :
    classify "." = LucoClass.doubleK ∧
    classifyClaimC6 "." = LucoClass.strK ∧
    LucoClass.doubleK ≠ LucoClass.strK :=
  ⟨rfl, by decide, by decide⟩

/-- Claim C6 (amended).  The classifier of unquoted lexemes behaves exactly
as the claim says once the parenthetical is dropped: Null iff `"null"`;
Boolean(true) iff `"true"`/`"on"`; Boolean(false) iff `"false"`/`"off"`;
Integer iff non-empty and all digits; Double iff non-empty and all
digits except exactly one `'.'` (so `"."` is Double); String otherwise. -/
theorem C6_amended_classification (s : String) :
    classify s = classifyAmendedC6 s := by
  by_cases h1 : s = "null"
  · subst h1; decide
  · by_cases h2 : s = "true"
    · subst h2; decide
    · by_cases h3 : s = "on"
      · subst h3; decide
      · by_cases h4 : s = "false"
        · subst h4; decide
        · by_cases h5 : s = "off"
          · subst h5; decide
          · have hnb : is_null s = false := by simp [is_null, h1]
            have hbool : is_boolean s = BooleanTypes.none := by
              rw [is_boolean, if_neg (by tauto), if_neg (by tauto)]
            rw [classify, hnb]
            simp only [Bool.false_eq_true, if_false]
            rw [classifyAmendedC6, if_neg h1, if_neg (by tauto),
              if_neg (by tauto)]
            cases hnum : is_number s with
            | int =>
              rw [if_pos ((is_number_eq_int_iff s).mp hnum)]
            | float =>
              rw [if_neg, if_pos ((is_number_eq_float_iff s).mp hnum)]
              intro hint
              rw [(is_number_eq_int_iff s).mpr hint] at hnum
              exact absurd hnum (by simp)
            | none =>
              rw [hbool]
              rw [if_neg, if_neg]
              · intro hflt
                rw [(is_number_eq_float_iff s).mpr hflt] at hnum
                exact absurd hnum (by simp)
              · intro hint
                rw [(is_number_eq_int_iff s).mpr hint] at hnum
                exact absurd hnum (by simp)

/-- Claim C7 (confirmed).  Parsing `name = "cat"\nage = 5\nsmol = true\n`
succeeds and produces an object with exactly the three entries
`age = 5` (integer), `name = "cat"` (string) and `smol = true` (boolean)
— listed here in the `std::map` key order. -/
theorem C7_parse_simple_document :
    ∃ st : Store × Nat,
      try_parse "name = \"cat\"\nage = 5\nsmol = true\n" = .ok st ∧
      readout 9 st.1 st.2 =
        some (Tree.obj [("age", Tree.val (Value.intV 5)),
          ("name", Tree.val (Value.str "cat")),
          ("smol", Tree.val (Value.boolV true))]) :=
  ⟨_, rfl, rfl⟩

/-! ## C8: insert-then-get -/

/-- Precondition under which the inserted argument keeps a well-defined
read-out: always for a scalar; for a pre-built node, the inserted subtree
must not reach back to the node inserted into (within `fuel`). -/
def ArgSafe (fuel : Nat) (s : Store) (n : Nat) : InsArg → Prop
  | .value _ => True
  | .node m => reachB fuel s m n = false

instance (fuel : Nat) (s : Store) (n : Nat) (a : InsArg) :
    Decidable (ArgSafe fuel s n a) :=
  match a with
  | .value _ => .isTrue trivial
  | .node m => inferInstanceAs (Decidable (reachB fuel s m n = false))

/-- Claim C8 (confirmed).  For an object node `n` in bounds, after
`n.insert(k, v)` succeeds: `n.contains(k)` is true, `n.try_at(k)` returns
the inserted child, the child reads out structurally equal to the node
built from `v` (for a pre-built node, under the no-cycle precondition),
and a second insert with the same key overwrites the first. -/
theorem C8_insert_then_get (s : Store) (n : Nat) (k : String) (a : InsArg)
    (fuel : Nat) (m : List (String × Nat))
    (hn : n < s.length) (hobj : s.cell n = Cell.obj m)
    (hsafe : ArgSafe fuel s n a) :
    ∃ s' c, insert s n k a = .ok (s', c) ∧
      contains s' n k = true ∧
      try_at_key s' n k = .ok c ∧
      readout (fuel + 1) s' c = argTree (fuel + 1) s a ∧
      (∀ a₂ s'' c₂, insert s' n k a₂ = .ok (s'', c₂) →
        try_at_key s'' n k = .ok c₂) := by
  have hins : insert s n k a =
      .ok ((nodeOfArg s a).1.set n
        (Cell.obj (mapInsert m k (nodeOfArg s a).2)), (nodeOfArg s a).2) := by
    rw [insert, hobj]
  refine ⟨_, _, hins, contains_of_try_at (insert_ok_try_at hn hins),
    insert_ok_try_at hn hins, ?_, ?_⟩
  · cases a with
    | value v =>
      have hcell : Store.cell ((nodeOfArg s (InsArg.value v)).1.set n
          (Cell.obj (mapInsert m k (nodeOfArg s (InsArg.value v)).2)))
          s.length = Cell.val v := by
        rw [cell_set_ne (Nat.ne_of_lt hn)]
        show Store.cell (s ++ [Cell.val v]) s.length = Cell.val v
        rw [Store.cell, get?_concat_self]
        rfl
      show readout (fuel + 1) _ s.length = some (Tree.val v)
      rw [readout, hcell]
    | node mId =>
      show readout (fuel + 1) _ mId = readout (fuel + 1) s mId
      refine readout_frame s _ n ?_ fuel mId hsafe
      intro i hi
      exact List.get?_set_ne _ _ (fun hh => hi hh.symm)
  · intro a₂ s'' c₂ h₂
    refine insert_ok_try_at ?_ h₂
    have hlen : s.length ≤ (nodeOfArg s a).1.length := by
      cases a with
      | value v => simp [nodeOfArg]
      | node id => simp [nodeOfArg]
    calc n < s.length := hn
      _ ≤ ((nodeOfArg s a).1.set n
            (Cell.obj (mapInsert m k (nodeOfArg s a).2))).length := by
          rw [List.length_set]; exact hlen

/-- Witness for `C8_insert_then_get`: inserting the scalar 5 under `"k"`
into the root object of the single-cell store. -/
theorem C8_witness :
    ((0 : Nat) < 1 ∧
      Store.cell [Cell.obj []] 0 = Cell.obj [] ∧
      ArgSafe 3 [Cell.obj []] 0 (InsArg.value (Value.intV 5))) ∧
    (∃ s' c, insert [Cell.obj []] 0 "k" (InsArg.value (Value.intV 5)) =
        .ok (s', c) ∧
      contains s' 0 "k" = true ∧
      try_at_key s' 0 "k" = .ok c ∧
      readout 4 s' c = argTree 4 [Cell.obj []] (InsArg.value (Value.intV 5)) ∧
      (∀ a₂ s'' c₂, insert s' 0 "k" a₂ = .ok (s'', c₂) →
        try_at_key s'' 0 "k" = .ok c₂)) :=
  ⟨⟨by decide, rfl, by decide⟩,
    C8_insert_then_get [Cell.obj []] 0 "k" (InsArg.value (Value.intV 5)) 3 []
      (by decide) rfl (by decide)⟩

/-- Claim C9 (confirmed).  On object nodes with disjoint key sets, `a + b`
and `b + a` produce the *same* fresh object cell (so the results are
structurally equal), and its entries are exactly the union of the entries
of `a` and `b`. -/
theorem C9_plus_commutative_on_disjoint_keys (s : Store) (a b : Nat)
    (ma mb : List (String × Nat))
    (ha : s.cell a = Cell.obj ma) (hb : s.cell b = Cell.obj mb)
    (hsa : MapSorted ma) (hsb : MapSorted mb)
    (hdisj : ∀ k, k ∈ ma.map Prod.fst → k ∈ mb.map Prod.fst → False) :
    node_add s a b = .ok (s ++ [Cell.obj (objMerge ma mb)], s.length) ∧
    node_add s b a = .ok (s ++ [Cell.obj (objMerge ma mb)], s.length) ∧
    (∀ k v, (objMerge ma mb).lookup k = some v ↔
      (ma.lookup k = some v ∨ mb.lookup k = some v)) := by
  have hna := mapSorted_keys_nodup hsa
  have hnb := mapSorted_keys_nodup hsb
  refine ⟨?_, ?_, ?_⟩
  · rw [node_add, if_neg (fun h => h (by rw [typeOf, typeOf, ha, hb])), ha, hb]
  · have h2 : node_add s b a =
        .ok (s ++ [Cell.obj (objMerge mb ma)], s.length) := by
      rw [node_add, if_neg (fun h => h (by rw [typeOf, typeOf, hb, ha])), hb, ha]
    rw [h2, objMerge_comm mb ma hnb hna (fun k hx hy => hdisj k hy hx)]
  · intro k v
    rw [lookup_objMerge ma mb hna hnb]
    cases hbk : mb.lookup k with
    | none => simp
    | some w =>
      constructor
      · intro hv
        exact Or.inr hv
      · rintro (hv | hv)
        · exact absurd (hdisj k (mem_of_lookup_some hv) (mem_of_lookup_some hbk))
            id
        · exact hv

/-- Witness for `C9_plus_commutative_on_disjoint_keys`:
`a = {"a": 1}` (cell 0), `b = {"b": 3}` (cell 2) with disjoint keys. -/
theorem C9_witness :
    (Store.cell [Cell.obj [("a", 1)], Cell.val (Value.intV 1),
        Cell.obj [("b", 3)], Cell.val (Value.str "x")] 0 =
          Cell.obj [("a", 1)] ∧
      Store.cell [Cell.obj [("a", 1)], Cell.val (Value.intV 1),
        Cell.obj [("b", 3)], Cell.val (Value.str "x")] 2 =
          Cell.obj [("b", 3)] ∧
      MapSorted [("a", 1)] ∧ MapSorted [("b", 3)] ∧
      (∀ k, k ∈ [("a", 1)].map Prod.fst → k ∈ [("b", 3)].map Prod.fst →
        False)) ∧
    (node_add [Cell.obj [("a", 1)], Cell.val (Value.intV 1),
        Cell.obj [("b", 3)], Cell.val (Value.str "x")] 0 2 =
      .ok ([Cell.obj [("a", 1)], Cell.val (Value.intV 1),
        Cell.obj [("b", 3)], Cell.val (Value.str "x")] ++
          [Cell.obj (objMerge [("a", 1)] [("b", 3)])], 4) ∧
    node_add [Cell.obj [("a", 1)], Cell.val (Value.intV 1),
        Cell.obj [("b", 3)], Cell.val (Value.str "x")] 2 0 =
      .ok ([Cell.obj [("a", 1)], Cell.val (Value.intV 1),
        Cell.obj [("b", 3)], Cell.val (Value.str "x")] ++
          [Cell.obj (objMerge [("a", 1)] [("b", 3)])], 4) ∧
    (∀ k v, (objMerge [("a", 1)] [("b", 3)]).lookup k = some v ↔
      ([("a", 1)].lookup k = some v ∨ [("b", 3)].lookup k = some v))) :=
  ⟨⟨rfl, rfl, by rw [MapSorted]; simp, by rw [MapSorted]; simp, by decide⟩,
    C9_plus_commutative_on_disjoint_keys _ 0 2 [("a", 1)] [("b", 3)] rfl rfl
      (by rw [MapSorted]; simp) (by rw [MapSorted]; simp) (by decide)⟩

/-- The last of two appended cells. -/
theorem cell_append_two (s : Store) (c₁ c₂ : Cell) :
    Store.cell (s ++ [c₁, c₂]) (s.length + 1) = c₂ := by
  have h : s ++ [c₁, c₂] = (s ++ [c₁]) ++ [c₂] := by simp
  have hlen : (s ++ [c₁]).length = s.length + 1 := by simp
  rw [h, Store.cell, ← hlen, get?_concat_self]
  rfl

/-- Claim C10 (confirmed).  Adding two Integer scalar nodes produces a
**Double** scalar node — never an Integer — whose value is the numeric
sum computed after `as_number` promotes both `int64_t` operands to
`double` (exact here, doubles being modelled as rationals).  The
evaluation also records the dead cell allocated by
`new_node(this->type())` before the assignment rebinds. -/
theorem C10_int_plus_int_promotes_to_double (s : Store) (a b : Nat)
    (x y : Int) (ha : s.cell a = Cell.val (Value.intV x))
    (hb : s.cell b = Cell.val (Value.intV y)) :
    node_add s a b =
      .ok (s ++ [Cell.val Value.noneV,
        Cell.val (Value.dbl ((x : Rat) + (y : Rat)))], s.length + 1) ∧
    node_is_double (s ++ [Cell.val Value.noneV,
      Cell.val (Value.dbl ((x : Rat) + (y : Rat)))]) (s.length + 1) = true ∧
    node_is_integer (s ++ [Cell.val Value.noneV,
      Cell.val (Value.dbl ((x : Rat) + (y : Rat)))]) (s.length + 1) = false := by
  refine ⟨?_, ?_, ?_⟩
  · rw [node_add, if_neg (fun h => h (by rw [typeOf, typeOf, ha, hb])), ha, hb]
    rfl
  · rw [node_is_double, cell_append_two]
    rfl
  · rw [node_is_integer, cell_append_two]
    rfl

/-- Witness for `C10_int_plus_int_promotes_to_double` at 2 + 3. -/
theorem C10_witness :
    (Store.cell [Cell.val (Value.intV 2), Cell.val (Value.intV 3)] 0 =
        Cell.val (Value.intV 2) ∧
      Store.cell [Cell.val (Value.intV 2), Cell.val (Value.intV 3)] 1 =
        Cell.val (Value.intV 3)) ∧
    (node_add [Cell.val (Value.intV 2), Cell.val (Value.intV 3)] 0 1 =
      .ok ([Cell.val (Value.intV 2), Cell.val (Value.intV 3)] ++
        [Cell.val Value.noneV,
          Cell.val (Value.dbl (((2 : Int) : Rat) + ((3 : Int) : Rat)))], 3) ∧
    node_is_double ([Cell.val (Value.intV 2), Cell.val (Value.intV 3)] ++
      [Cell.val Value.noneV,
        Cell.val (Value.dbl (((2 : Int) : Rat) + ((3 : Int) : Rat)))]) 3 =
      true ∧
    node_is_integer ([Cell.val (Value.intV 2), Cell.val (Value.intV 3)] ++
      [Cell.val Value.noneV,
        Cell.val (Value.dbl (((2 : Int) : Rat) + ((3 : Int) : Rat)))]) 3 =
      false) :=
  ⟨⟨rfl, rfl⟩,
    C10_int_plus_int_promotes_to_double
      [Cell.val (Value.intV 2), Cell.val (Value.intV 3)] 0 1 2 3 rfl rfl⟩

end Luco
